import Mathlib

/-!
Push subscriber and push-envelope decoder of watermill-googlecloud-http.

A shallow embedding of `pkg/googlecloud/http/unmarshaler.go` and
`pkg/googlecloud/http/subscriber.go`.

* Go `string` values that come out of the JSON decoder are Lean `String`s.
* Go `[]byte` is `List Nat` (every element below 256).
* Go `map[string]string` is an association list: the list order is the order in
  which one `range` loop visits the entries, the keys are pairwise different.
* `json.NewDecoder(r.Body).Decode` is `Decoder.Decode`: the scanner of encoding/json finds
  the first JSON value of the body, character by character (a character that is not ASCII
  acts as each of its bytes does); the unmarshalling of that value is an argument.
* Channels live in a heap (`World.chans`); a channel value is its index.
* The scheduler's choices (does a consumer receive, which `select` case fires)
  are an explicit argument of the handler.
-/

namespace googlecloud_http

/-! ## encoding/base64 (the part `DecodeString` and `EncodeToString` use) -/

/-- An `Encoding` of encoding/base64: alphabet, padding character (`none` is `NoPadding`),
strict flag. -/
structure Encoding where
  encode : List Char
  padChar : Option Char
  strict : Bool

/-- The alphabet `encodeStd`. -/
def encodeStd : List Char :=
  "ABCDEFGHIJKLMNOPQRSTUVWXYZabcdefghijklmnopqrstuvwxyz0123456789+/".toList

/-- The encoding `base64.StdEncoding`: standard alphabet, padding `=`, not strict. -/
def StdEncoding : Encoding := { encode := encodeStd, padChar := some '=', strict := false }

/-- The method `Strict()`: the same encoding with strict decoding enabled. -/
def Encoding.Strict (enc : Encoding) : Encoding := { enc with strict := true }

/-- The table `enc.decodeMap`: the position of a character in the alphabet, `0xff` for a
character that is not in it (every byte of a non-ASCII character is such a character). -/
def Encoding.decodeMap (enc : Encoding) (c : Char) : Nat :=
  if enc.encode.indexOf c < 64 then enc.encode.indexOf c else 0xff

/-- The lookup `enc.encode[i]`. -/
def Encoding.encodeAt (enc : Encoding) (i : Nat) : Char := enc.encode.getD i 'A'

/-- The two loops `for si < len(src) && (src[si] == '\n' || src[si] == '\r') { si++ }`. -/
def skipNewlines : List Char → List Char
  | [] => []
  | c :: rest => if c = '\n' ∨ c = '\r' then skipNewlines rest else c :: rest

/-- The tail of `decodeQuantum`: the sextets read (`dlen = dbuf.length`, missing ones are
zero) are packed into `val` and `dlen - 1` bytes are written; in strict mode non-zero
trailing bits are a `CorruptInputError`, and then no byte is counted. The result is the
bytes counted and the error flag; `err` is the error already set (trailing garbage). -/
def Encoding.convert (enc : Encoding) (dbuf : List Nat) (err : Bool) : List Nat × Bool :=
  let val := dbuf.getD 0 0 <<< 18 ||| dbuf.getD 1 0 <<< 12 ||| dbuf.getD 2 0 <<< 6 ||| dbuf.getD 3 0
  let b0 := (val >>> 16) % 256
  let b1 := (val >>> 8) % 256
  let b2 := val % 256
  match dbuf.length with
  | 4 => ([b0, b1, b2], err)
  | 3 => if enc.strict ∧ b2 ≠ 0 then ([], true) else ([b0, b1], err)
  | 2 => if enc.strict ∧ (b1 ≠ 0 ∨ b2 ≠ 0) then ([], true) else ([b0], err)
  | _ => ([], err)

/-- The loop of `Decode` around `decodeQuantum`, one input character at a time: `dbuf` holds
the sextets of the quantum being read (`j = dbuf.length`). A full quantum is converted and
the next one starts with an empty `dbuf`; a padding character ends the input. The result
is the decoded bytes `dst[:n]` and whether an error was returned (its offset is not kept).
The word-at-a-time fast paths of `Decode` compute the same function and are not modelled
apart. -/
def Encoding.decodeFrom (enc : Encoding) : List Char → List Nat → List Nat × Bool
  | [], dbuf =>
    -- `len(src) == si`
    if dbuf.length = 0 then ([], false)
    else if dbuf.length = 1 ∨ enc.padChar ≠ none then ([], true)
    else enc.convert dbuf false
  | c :: rest, dbuf =>
    if enc.decodeMap c ≠ 0xff then
      if dbuf.length = 3 then
        match enc.convert (dbuf ++ [enc.decodeMap c]) false with
        | (bytes, true) => (bytes, true)
        | (bytes, false) => (bytes ++ (enc.decodeFrom rest []).1, (enc.decodeFrom rest []).2)
      else enc.decodeFrom rest (dbuf ++ [enc.decodeMap c])
    else if c = '\n' ∨ c = '\r' then enc.decodeFrom rest dbuf
    else if some c ≠ enc.padChar then ([], true)
    else
      -- padding: `j` sextets were read before it
      match dbuf.length with
      | 0 => ([], true)
      | 1 => ([], true)
      | 2 =>
        -- the second `=` is expected, newlines before it are skipped
        match skipNewlines rest with
        | [] => ([], true)
        | c2 :: rest2 =>
          if some c2 ≠ enc.padChar then ([], true)
          else enc.convert dbuf (decide (skipNewlines rest2 ≠ []))
      | _ => enc.convert dbuf (decide (skipNewlines rest ≠ []))

/-- The method `DecodeString`: the bytes decoded and whether an error is returned. -/
def Encoding.DecodeString (enc : Encoding) (s : String) : List Nat × Bool :=
  enc.decodeFrom s.toList []

/-- The method `Encode`, on the bytes of the source: three bytes give four characters, a
remainder of one or two bytes gives two or three characters and the padding. -/
def Encoding.Encode (enc : Encoding) : List Nat → List Char
  | b0 :: b1 :: b2 :: rest =>
    let val := b0 <<< 16 ||| b1 <<< 8 ||| b2
    enc.encodeAt (val >>> 18 &&& 0x3F) :: enc.encodeAt (val >>> 12 &&& 0x3F) ::
      enc.encodeAt (val >>> 6 &&& 0x3F) :: enc.encodeAt (val &&& 0x3F) :: enc.Encode rest
  | [b0, b1] =>
    let val := b0 <<< 16 ||| b1 <<< 8
    [enc.encodeAt (val >>> 18 &&& 0x3F), enc.encodeAt (val >>> 12 &&& 0x3F),
      enc.encodeAt (val >>> 6 &&& 0x3F)] ++ (match enc.padChar with | some p => [p] | none => [])
  | [b0] =>
    let val := b0 <<< 16
    [enc.encodeAt (val >>> 18 &&& 0x3F), enc.encodeAt (val >>> 12 &&& 0x3F)] ++
      (match enc.padChar with | some p => [p, p] | none => [])
  | [] => []

/-- The method `EncodeToString`. -/
def Encoding.EncodeToString (enc : Encoding) (src : List Nat) : String :=
  String.mk (enc.Encode src)

/-! ## watermill `message` (the part the subscriber uses) -/

/-- The type `message.Metadata`, a `map[string]string`. -/
abbrev Metadata := List (String × String)

/-- The index expression `m[key]` with its `ok` result. -/
def Metadata.lookup (m : Metadata) (key : String) : Option String :=
  match m with
  | [] => none
  | (k, v) :: rest => if k = key then some v else Metadata.lookup rest key

/-- The method `Metadata.Set`, `m[key] = value`: an existing entry is replaced, a new one is
added. -/
def Metadata.Set (m : Metadata) (key value : String) : Metadata :=
  match m with
  | [] => [(key, value)]
  | (k, v) :: rest =>
    if k = key then (k, value) :: rest else (k, v) :: Metadata.Set rest key value

/-- A context made by `context.WithCancel`: the name of the context it was derived from (a
context some caller passed to `Subscribe`) and whether it has been cancelled. -/
structure Context where
  parent : Nat
  cancelled : Bool
deriving DecidableEq, Repr

/-- The struct `message.Message`: identifier, metadata, payload and the attached context
(its index in `World.contexts`). The ack and nack signals are events of the scheduler
(`WaitEvent`). -/
structure Message where
  UUID : String
  Metadata : Metadata
  Payload : List Nat
  ctx : Option Nat
deriving DecidableEq, Repr

/-- The constructor `message.NewMessage`: empty metadata, no context yet. -/
def NewMessage (uuid : String) (payload : List Nat) : Message :=
  { UUID := uuid, Metadata := [], Payload := payload, ctx := none }

/-! ## unmarshaler.go -/

/-- The constant `UUIDHeaderKey`. -/
def UUIDHeaderKey : String := "_watermill_message_uuid"

/-- The fields of `pubsub_rest.PubsubMessage` that the JSON decoder fills. -/
structure PubsubMessage where
  Attributes : List (String × String)
  Data : String
  MessageId : String
  OrderingKey : String
  PublishTime : String
deriving DecidableEq, Repr

/-- The struct `pushRequest`. -/
structure pushRequest where
  PubsubMessage : PubsubMessage
  Subscription : String
deriving DecidableEq, Repr

/-- An `http.Request`: its body. -/
structure Request where
  Body : String
deriving DecidableEq, Repr

/-- An `error` value. -/
abbrev GoError := String

/-- The type `UnmarshalMessageFunc`: a request gives a message pointer (`none` is nil) and
an error (`none` is nil). -/
abbrev UnmarshalMessageFunc := Request → Option Message × Option GoError

/-- One turn of the loop over `pubsubMessage.Attributes`, on the pair `(id, metadata)`. -/
def attributeStep (st : String × Metadata) (kv : String × String) : String × Metadata :=
  if kv.1 = UUIDHeaderKey then (kv.2, st.2) else (st.1, Metadata.Set st.2 kv.1 kv.2)

/-- The function `DefaultUnmarshalMessageFunc`. The call
`json.NewDecoder(r.Body).Decode(&pushRequest)` is the argument `jsonDecode`. -/
def DefaultUnmarshalMessageFunc (jsonDecode : String → Except GoError pushRequest)
    (r : Request) : Option Message × Option GoError :=
  match jsonDecode r.Body with
  | .error err => (none, some err)
  | .ok pushRequest =>
    let pubsubMessage := pushRequest.PubsubMessage
    let st := pubsubMessage.Attributes.foldl attributeStep ("", [])
    let metadata := Metadata.Set st.2 "publishTime" pubsubMessage.PublishTime
    match StdEncoding.DecodeString pubsubMessage.Data with
    | (_, true) => (none, some "illegal base64 data")
    | (payload, false) => (some { NewMessage st.1 payload with Metadata := metadata }, none)

/-! ## encoding/json: the scanner and `Decoder.Decode` -/

/-- The step functions of the scanner (`scanner.step`). -/
inductive ScanState where
  | stateBeginValueOrEmpty
  | stateBeginValue
  | stateBeginStringOrEmpty
  | stateBeginString
  | stateEndValue
  | stateEndTop
  | stateInString
  | stateInStringEsc
  | stateInStringEscU
  | stateInStringEscU1
  | stateInStringEscU12
  | stateInStringEscU123
  | stateNeg
  | state1
  | state0
  | stateDot
  | stateDot0
  | stateE
  | stateESign
  | stateE0
  | stateT
  | stateTr
  | stateTru
  | stateF
  | stateFa
  | stateFal
  | stateFals
  | stateN
  | stateNu
  | stateNul
  | stateError
deriving DecidableEq, Repr

/-- The codes a step function returns. -/
inductive ScanCode where
  | scanContinue
  | scanBeginLiteral
  | scanBeginObject
  | scanObjectKey
  | scanObjectValue
  | scanEndObject
  | scanBeginArray
  | scanArrayValue
  | scanEndArray
  | scanSkipSpace
  | scanEnd
  | scanError
deriving DecidableEq, Repr

/-- The entries of the scanner's `parseState` stack. -/
inductive ParseState where
  | parseObjectKey
  | parseObjectValue
  | parseArrayValue
deriving DecidableEq, Repr

/-- The struct `scanner`: the step function, whether the top-level value has ended, the
stack of open objects and arrays (the head of the list is the last element of the Go slice)
and the error. The byte counter, used in error texts only, is left out. -/
structure scanner where
  step : ScanState
  endTop : Bool
  parseState : List ParseState
  err : Option GoError
deriving DecidableEq, Repr

/-- The constant `maxNestingDepth`. -/
def maxNestingDepth : Nat := 10000

/-- The scanner after `reset`. -/
def scanner.reset : scanner :=
  { step := .stateBeginValue, endTop := false, parseState := [], err := none }

/-- The method `error`: the scanner stops in `stateError`. -/
def scanner.error (s : scanner) (context : String) : scanner × ScanCode :=
  ({ s with step := .stateError, err := some ("invalid character " ++ context) }, .scanError)

/-- The method `pushParseState`. -/
def scanner.pushParseState (s : scanner) (newParseState : ParseState)
    (successState : ScanCode) : scanner × ScanCode :=
  let s := { s with parseState := newParseState :: s.parseState }
  if s.parseState.length ≤ maxNestingDepth then (s, successState)
  else s.error "exceeded max depth"

/-- The method `popParseState`. -/
def scanner.popParseState (s : scanner) : scanner :=
  let s := { s with parseState := s.parseState.tail }
  if s.parseState.length = 0 then { s with step := .stateEndTop, endTop := true }
  else { s with step := .stateEndValue }

/-- The function `isSpace` of the scanner. -/
def isSpace (c : Char) : Bool := c = ' ' || c = '\t' || c = '\r' || c = '\n'

/-- The step function `stateEndTop`: a byte that is not a space after the top-level value
records an error, and the code is `scanEnd` all the same. -/
def stateEndTop (s : scanner) (c : Char) : scanner × ScanCode :=
  if !isSpace c then ((s.error "after top-level value").1, .scanEnd) else (s, .scanEnd)

/-- The step function `stateEndValue`. -/
def stateEndValue (s : scanner) (c : Char) : scanner × ScanCode :=
  match s.parseState with
  | [] => stateEndTop { s with step := .stateEndTop, endTop := true } c
  | ps :: rest =>
    if isSpace c then ({ s with step := .stateEndValue }, .scanSkipSpace)
    else
      match ps with
      | .parseObjectKey =>
        if c = ':' then
          ({ s with parseState := .parseObjectValue :: rest, step := .stateBeginValue },
            .scanObjectKey)
        else s.error "after object key"
      | .parseObjectValue =>
        if c = ',' then
          ({ s with parseState := .parseObjectKey :: rest, step := .stateBeginString },
            .scanObjectValue)
        else if c = '}' then (s.popParseState, .scanEndObject)
        else s.error "after object key:value pair"
      | .parseArrayValue =>
        if c = ',' then ({ s with step := .stateBeginValue }, .scanArrayValue)
        else if c = ']' then (s.popParseState, .scanEndArray)
        else s.error "after array element"

/-- The step function `stateBeginValue`. -/
def stateBeginValue (s : scanner) (c : Char) : scanner × ScanCode :=
  if isSpace c then (s, .scanSkipSpace)
  else if c = '{' then
    scanner.pushParseState { s with step := .stateBeginStringOrEmpty } .parseObjectKey
      .scanBeginObject
  else if c = '[' then
    scanner.pushParseState { s with step := .stateBeginValueOrEmpty } .parseArrayValue
      .scanBeginArray
  else if c = '"' then ({ s with step := .stateInString }, .scanBeginLiteral)
  else if c = '-' then ({ s with step := .stateNeg }, .scanBeginLiteral)
  else if c = '0' then ({ s with step := .state0 }, .scanBeginLiteral)
  else if c = 't' then ({ s with step := .stateT }, .scanBeginLiteral)
  else if c = 'f' then ({ s with step := .stateF }, .scanBeginLiteral)
  else if c = 'n' then ({ s with step := .stateN }, .scanBeginLiteral)
  else if '1' ≤ c ∧ c ≤ '9' then ({ s with step := .state1 }, .scanBeginLiteral)
  else s.error "looking for beginning of value"

/-- The step function `stateBeginValueOrEmpty`. -/
def stateBeginValueOrEmpty (s : scanner) (c : Char) : scanner × ScanCode :=
  if isSpace c then (s, .scanSkipSpace)
  else if c = ']' then stateEndValue s c
  else stateBeginValue s c

/-- The step function `stateBeginString`. -/
def stateBeginString (s : scanner) (c : Char) : scanner × ScanCode :=
  if isSpace c then (s, .scanSkipSpace)
  else if c = '"' then ({ s with step := .stateInString }, .scanBeginLiteral)
  else s.error "looking for beginning of object key string"

/-- The step function `stateBeginStringOrEmpty`. -/
def stateBeginStringOrEmpty (s : scanner) (c : Char) : scanner × ScanCode :=
  if isSpace c then (s, .scanSkipSpace)
  else if c = '}' then
    stateEndValue { s with parseState := .parseObjectValue :: s.parseState.tail } c
  else stateBeginString s c

/-- The step function `stateInString`. -/
def stateInString (s : scanner) (c : Char) : scanner × ScanCode :=
  if c = '"' then ({ s with step := .stateEndValue }, .scanContinue)
  else if c = '\\' then ({ s with step := .stateInStringEsc }, .scanContinue)
  else if c.toNat < 0x20 then s.error "in string literal"
  else (s, .scanContinue)

/-- The step function `stateInStringEsc`. -/
def stateInStringEsc (s : scanner) (c : Char) : scanner × ScanCode :=
  if c = 'b' ∨ c = 'f' ∨ c = 'n' ∨ c = 'r' ∨ c = 't' ∨ c = '\\' ∨ c = '/' ∨ c = '"' then
    ({ s with step := .stateInString }, .scanContinue)
  else if c = 'u' then ({ s with step := .stateInStringEscU }, .scanContinue)
  else s.error "in string escape code"

/-- The test on a hexadecimal digit in the four `stateInStringEscU` functions. -/
def isHex (c : Char) : Bool :=
  ('0' ≤ c && c ≤ '9') || ('a' ≤ c && c ≤ 'f') || ('A' ≤ c && c ≤ 'F')

/-- The step functions `stateInStringEscU`, `stateInStringEscU1`, `stateInStringEscU12`,
`stateInStringEscU123`: a hexadecimal digit leads to `next`. -/
def stateInStringEscHex (next : ScanState) (s : scanner) (c : Char) : scanner × ScanCode :=
  if isHex c then ({ s with step := next }, .scanContinue)
  else s.error "in \\u hexadecimal character escape"

/-- The step function `state0`. -/
def state0 (s : scanner) (c : Char) : scanner × ScanCode :=
  if c = '.' then ({ s with step := .stateDot }, .scanContinue)
  else if c = 'e' ∨ c = 'E' then ({ s with step := .stateE }, .scanContinue)
  else stateEndValue s c

/-- The step function `state1`. -/
def state1 (s : scanner) (c : Char) : scanner × ScanCode :=
  if '0' ≤ c ∧ c ≤ '9' then ({ s with step := .state1 }, .scanContinue)
  else state0 s c

/-- The step function `stateNeg`. -/
def stateNeg (s : scanner) (c : Char) : scanner × ScanCode :=
  if c = '0' then ({ s with step := .state0 }, .scanContinue)
  else if '1' ≤ c ∧ c ≤ '9' then ({ s with step := .state1 }, .scanContinue)
  else s.error "in numeric literal"

/-- The step function `stateDot`. -/
def stateDot (s : scanner) (c : Char) : scanner × ScanCode :=
  if '0' ≤ c ∧ c ≤ '9' then ({ s with step := .stateDot0 }, .scanContinue)
  else s.error "after decimal point in numeric literal"

/-- The step function `stateDot0`. -/
def stateDot0 (s : scanner) (c : Char) : scanner × ScanCode :=
  if '0' ≤ c ∧ c ≤ '9' then (s, .scanContinue)
  else if c = 'e' ∨ c = 'E' then ({ s with step := .stateE }, .scanContinue)
  else stateEndValue s c

/-- The step function `stateESign`. -/
def stateESign (s : scanner) (c : Char) : scanner × ScanCode :=
  if '0' ≤ c ∧ c ≤ '9' then ({ s with step := .stateE0 }, .scanContinue)
  else s.error "in exponent of numeric literal"

/-- The step function `stateE`. -/
def stateE (s : scanner) (c : Char) : scanner × ScanCode :=
  if c = '+' ∨ c = '-' then ({ s with step := .stateESign }, .scanContinue)
  else stateESign s c

/-- The step function `stateE0`. -/
def stateE0 (s : scanner) (c : Char) : scanner × ScanCode :=
  if '0' ≤ c ∧ c ≤ '9' then (s, .scanContinue)
  else stateEndValue s c

/-- The step functions inside the literals `true`, `false` and `null`: the character
`want` leads to `next`. -/
def stateLiteral (want : Char) (next : ScanState) (context : String) (s : scanner)
    (c : Char) : scanner × ScanCode :=
  if c = want then ({ s with step := next }, .scanContinue)
  else s.error context

/-- The call `s.step(s, c)`. -/
def scanner.stepOn (s : scanner) (c : Char) : scanner × ScanCode :=
  match s.step with
  | .stateBeginValueOrEmpty => stateBeginValueOrEmpty s c
  | .stateBeginValue => stateBeginValue s c
  | .stateBeginStringOrEmpty => stateBeginStringOrEmpty s c
  | .stateBeginString => stateBeginString s c
  | .stateEndValue => stateEndValue s c
  | .stateEndTop => stateEndTop s c
  | .stateInString => stateInString s c
  | .stateInStringEsc => stateInStringEsc s c
  | .stateInStringEscU => stateInStringEscHex .stateInStringEscU1 s c
  | .stateInStringEscU1 => stateInStringEscHex .stateInStringEscU12 s c
  | .stateInStringEscU12 => stateInStringEscHex .stateInStringEscU123 s c
  | .stateInStringEscU123 => stateInStringEscHex .stateInString s c
  | .stateNeg => stateNeg s c
  | .state1 => state1 s c
  | .state0 => state0 s c
  | .stateDot => stateDot s c
  | .stateDot0 => stateDot0 s c
  | .stateE => stateE s c
  | .stateESign => stateESign s c
  | .stateE0 => stateE0 s c
  | .stateT => stateLiteral 'r' .stateTr "in literal true (expecting 'r')" s c
  | .stateTr => stateLiteral 'u' .stateTru "in literal true (expecting 'u')" s c
  | .stateTru => stateLiteral 'e' .stateEndValue "in literal true (expecting 'e')" s c
  | .stateF => stateLiteral 'a' .stateFa "in literal false (expecting 'a')" s c
  | .stateFa => stateLiteral 'l' .stateFal "in literal false (expecting 'l')" s c
  | .stateFal => stateLiteral 's' .stateFals "in literal false (expecting 's')" s c
  | .stateFals => stateLiteral 'e' .stateEndValue "in literal false (expecting 'e')" s c
  | .stateN => stateLiteral 'u' .stateNu "in literal null (expecting 'u')" s c
  | .stateNu => stateLiteral 'l' .stateNul "in literal null (expecting 'l')" s c
  | .stateNul => stateLiteral 'l' .stateEndValue "in literal null (expecting 'l')" s c
  | .stateError => (s, .scanError)

/-- The method `eof`: the code at the end of the input. -/
def scanner.eof (s : scanner) : ScanCode :=
  if s.err ≠ none then .scanError
  else if s.endTop then .scanEnd
  else if (s.stepOn ' ').1.endTop then .scanEnd
  else .scanError

/-- The loop of `checkValid` from the scanner state `s` on. -/
def checkValidFrom : List Char → scanner → Bool
  | [], s => s.eof ≠ .scanError
  | c :: rest, s =>
    if (s.stepOn c).2 = .scanError then false else checkValidFrom rest (s.stepOn c).1

/-- The function `json.Valid`: whether the data is one valid JSON value. -/
def Valid (data : String) : Bool := checkValidFrom data.toList scanner.reset

/-- The loop of `Decoder.readValue` on the bytes not scanned yet, `scanp` of them scanned
before: the length of the encoding of the first value, or the error. The reader is at its
end when the buffer is; `buf` is the whole buffer, for the test `nonSpace(dec.buf)`. -/
def readValueFrom (buf : List Char) : List Char → scanner → Nat → Except GoError Nat
  | [], s, scanp =>
    if (s.stepOn ' ').2 = .scanEnd then .ok scanp
    else if buf.any (fun c => !isSpace c) then .error "unexpected EOF"
    else .error "EOF"
  | c :: rest, s, scanp =>
    match (s.stepOn c).2 with
    | .scanEnd => .ok scanp
    | .scanEndObject =>
      if (stateEndValue (s.stepOn c).1 ' ').2 = .scanEnd then .ok (scanp + 1)
      else readValueFrom buf rest (stateEndValue (s.stepOn c).1 ' ').1 (scanp + 1)
    | .scanEndArray =>
      if (stateEndValue (s.stepOn c).1 ' ').2 = .scanEnd then .ok (scanp + 1)
      else readValueFrom buf rest (stateEndValue (s.stepOn c).1 ' ').1 (scanp + 1)
    | .scanError => .error "invalid character"
    | _ => readValueFrom buf rest (s.stepOn c).1 (scanp + 1)

/-- The method `readValue` of a new `Decoder` on a body. -/
def readValue (buf : List Char) : Except GoError Nat := readValueFrom buf buf scanner.reset 0

/-- The method `Decode` of `json.NewDecoder(r.Body)`, called once: the first JSON value of
the body is read, what follows it is left unread, and the value is unmarshalled into a
`pushRequest`. The call `dec.d.unmarshal(v)` is the argument `unmarshal`. -/
def Decoder.Decode (unmarshal : String → Except GoError pushRequest) (body : String) :
    Except GoError pushRequest :=
  match readValue body.toList with
  | .error err => .error err
  | .ok n => unmarshal (String.mk (body.toList.take n))

/-! ## subscriber.go -/

/-- The status `http.StatusOK`. -/
def StatusOK : Nat := 200

/-- The status `http.StatusBadRequest`. -/
def StatusBadRequest : Nat := 400

/-- The status `http.StatusInternalServerError`. -/
def StatusInternalServerError : Nat := 500

/-- An `http.ResponseWriter`: the statuses passed to `WriteHeader`, oldest first. -/
structure ResponseWriter where
  headers : List Nat
deriving DecidableEq, Repr

/-- The method `WriteHeader`. -/
def ResponseWriter.WriteHeader (w : ResponseWriter) (status : Nat) : ResponseWriter :=
  { headers := w.headers ++ [status] }

/-- A `watermill.LoggerAdapter`: `NopLogger` or the adapter the caller supplied. -/
inductive LoggerAdapter where
  | NopLogger
  | supplied (id : Nat)
deriving DecidableEq, Repr

/-- The log levels the subscriber uses. -/
inductive LogLevel where
  | Info
  | Trace
deriving DecidableEq, Repr

/-- A channel `chan *message.Message` without buffer: whether it is closed and the messages
consumers received from it, oldest first. -/
structure Chan where
  closed : Bool
  delivered : List Message
deriving DecidableEq, Repr

/-- The type `RegisterHttpHandler`: the callback of the host, named by its mux. -/
structure RegisterHttpHandler where
  mux : Nat
deriving DecidableEq, Repr

/-- The struct `SubscriberConfig`; `none` is a nil function. -/
structure SubscriberConfig where
  RegisterHttpHandler : Option RegisterHttpHandler
  UnmarshalMessageFunc : Option UnmarshalMessageFunc

/-- The closure `http.HandlerFunc(func(w, r) ...)` built by `Subscribe`: the variables it
captures. -/
structure PushHandler where
  config : SubscriberConfig
  logger : LoggerAdapter
  messages : Nat
  ctx : Nat
  url : String

/-- One call of the registration callback. -/
structure Registration where
  mux : Nat
  pattern : String
  handler : PushHandler

/-- Everything outside the Subscriber: the channel heap, the contexts made by
`context.WithCancel`, the calls the host callback received, the calls the logger received. -/
structure World where
  chans : List Chan
  contexts : List Context
  registered : List Registration
  log : List (LogLevel × String)

/-- The struct `Subscriber` (the lock guards `outputChannels` between goroutines and has no
state in a sequence of calls). -/
structure Subscriber where
  config : SubscriberConfig
  logger : LoggerAdapter
  outputChannels : List Nat
  closed : Bool

/-- The method `setDefaults`. -/
def SubscriberConfig.setDefaults (jsonDecode : String → Except GoError pushRequest)
    (c : SubscriberConfig) : SubscriberConfig :=
  match c.UnmarshalMessageFunc with
  | none => { c with UnmarshalMessageFunc := some (DefaultUnmarshalMessageFunc jsonDecode) }
  | some _ => c

/-- The function `NewSubscriber`; `logger = none` is a nil logger. -/
def NewSubscriber (jsonDecode : String → Except GoError pushRequest)
    (config : SubscriberConfig) (logger : Option LoggerAdapter) :
    Option Subscriber × Option GoError :=
  let config := config.setDefaults jsonDecode
  match config.RegisterHttpHandler with
  | none => (none, some "missing a 'RegisterHttpHandler'")
  | some _ =>
    let logger := match logger with
      | none => LoggerAdapter.NopLogger
      | some l => l
    (some { config := config, logger := logger, outputChannels := [], closed := false }, none)

/-- The function `strings.HasPrefix`. -/
def HasPrefix (s pre : String) : Bool := pre.toList.isPrefixOf s.toList

/-- The variable `url` of `Subscribe` after `if !strings.HasPrefix(url, "/")`. -/
def routeOf (url : String) : String :=
  if !HasPrefix url "/" then "/" ++ url else url

/-- What a call of `Subscribe` leaves: the Subscriber, the world, whether the call panicked
(a nil callback), and the two results. -/
structure SubscribeResult where
  s : Subscriber
  world : World
  panicked : Bool
  messages : Option Nat
  err : Option GoError

/-- The method `Subscribe`. -/
def Subscriber.Subscribe (s : Subscriber) (ctx : Nat) (url : String) (world : World) :
    SubscribeResult :=
  -- `make(chan *message.Message)`
  let messages := world.chans.length
  let world := { world with chans := world.chans ++ [{ closed := false, delivered := [] }] }
  let s := { s with outputChannels := s.outputChannels ++ [messages] }
  let handler : PushHandler :=
    { config := s.config, logger := s.logger, messages := messages, ctx := ctx, url := url }
  match s.config.RegisterHttpHandler with
  | none => { s := s, world := world, panicked := true, messages := none, err := none }
  | some register =>
    let world := { world with
      registered := world.registered ++
        [{ mux := register.mux, pattern := routeOf url, handler := handler }] }
    { s := s, world := world, panicked := false, messages := some messages, err := none }

/-- The events a handler waits for in its `select`. -/
inductive WaitEvent where
  | Acked
  | Nacked
  | RequestDone
deriving DecidableEq, Repr

/-- The choices of the scheduler for one request: whether a consumer receives the message
sent on the channel, and the case of the `select` that runs (`none`: no case ever gets
ready). -/
structure Schedule where
  received : Bool
  event : Option WaitEvent
deriving DecidableEq, Repr

/-- How a call of the handler ends. -/
inductive Exit where
  | returned
  | panicked
  | blockedOnSend
  | blockedOnSelect
deriving DecidableEq, Repr

/-- What a call of the handler leaves. -/
structure Outcome where
  exit : Exit
  w : ResponseWriter
  world : World

/-- A call of a logger method. -/
def World.logCall (world : World) (level : LogLevel) (msg : String) : World :=
  { world with log := world.log ++ [(level, msg)] }

/-- The call `cancelCtx()` on the context with index `c`. -/
def World.cancel (world : World) (c : Nat) : World :=
  { world with
    contexts := world.contexts.modify (fun (x : Context) => { x with cancelled := true }) c }

/-- The statement `messages <- msg` when a consumer receives. -/
def World.deliver (world : World) (ch : Nat) (msg : Message) : World :=
  { world with
    chans := world.chans.modify (fun (c : Chan) => { c with delivered := c.delivered ++ [msg] }) ch }

/-- The status written in each case of the `select`. -/
def statusOf : WaitEvent → Nat
  | .Acked => StatusOK
  | .Nacked => StatusInternalServerError
  | .RequestDone => StatusInternalServerError

/-- The log call in each case of the `select`. -/
def logOf : WaitEvent → LogLevel × String
  | .Acked => (.Trace, "Message acknowledged")
  | .Nacked => (.Info, "Message nacked")
  | .RequestDone => (.Info, "Request stopped without ACK received")

/-- The handler closure, run on one request under the scheduler's choices. -/
def PushHandler.ServeHTTP (h : PushHandler) (sched : Schedule) (w : ResponseWriter)
    (r : Request) (world : World) : Outcome :=
  match h.config.UnmarshalMessageFunc with
  | none => { exit := .panicked, w := w, world := world }
  | some unmarshal =>
    match unmarshal r with
    | (_, some _) =>
      { exit := .returned, w := w.WriteHeader StatusBadRequest,
        world := world.logCall .Info "Cannot unmarshal message" }
    | (none, none) =>
      { exit := .returned, w := w.WriteHeader StatusBadRequest,
        world := world.logCall .Info "No message returned by UnmarshalMessageFunc" }
    | (some msg, none) =>
      -- `context.WithCancel(ctx)`, `msg.SetContext(ctx)`, `defer cancelCtx()`
      let c := world.contexts.length
      let world : World :=
        { world with contexts := world.contexts ++ [{ parent := h.ctx, cancelled := false }] }
      let msg : Message := { msg with ctx := some c }
      let world := world.logCall .Trace "Sending msg"
      match world.chans.get? h.messages with
      | none => { exit := .blockedOnSend, w := w, world := world }
      | some ch =>
        if ch.closed then { exit := .panicked, w := w, world := world.cancel c }
        else if !sched.received then { exit := .blockedOnSend, w := w, world := world }
        else
          let world := world.deliver h.messages msg
          let world := world.logCall .Trace "Waiting for ACK"
          match sched.event with
          | none => { exit := .blockedOnSelect, w := w, world := world }
          | some ev =>
            { exit := .returned, w := w.WriteHeader (statusOf ev),
              world := (world.logCall (logOf ev).1 (logOf ev).2).cancel c }

/-- The statement `close(ch)`: `none` is the panic on a nil or closed channel. -/
def closeChan (chans : List Chan) (ch : Nat) : Option (List Chan) :=
  match chans.get? ch with
  | none => none
  | some c =>
    if c.closed then none
    else some (chans.modify (fun (c : Chan) => { c with closed := true }) ch)

/-- The loop `for _, ch := range s.outputChannels { close(ch) }`: the heap it leaves and
whether a `close` panicked. -/
def closeAll : List Nat → List Chan → List Chan × Bool
  | [], chans => (chans, false)
  | ch :: rest, chans =>
    match closeChan chans ch with
    | none => (chans, true)
    | some chans => closeAll rest chans

/-- What a call of `Close` leaves. -/
structure CloseResult where
  s : Subscriber
  world : World
  panicked : Bool
  err : Option GoError

/-- The method `Close`. -/
def Subscriber.Close (s : Subscriber) (world : World) : CloseResult :=
  if s.closed then { s := s, world := world, panicked := false, err := none }
  else
    let s := { s with closed := true }
    let r := closeAll s.outputChannels world.chans
    { s := s, world := { world with chans := r.1 }, panicked := r.2, err := none }

/-- A call on the Subscriber. -/
inductive Call where
  | Subscribe (ctx : Nat) (url : String)
  | Close

/-- A sequence of calls, oldest first; `none` when a call panics. -/
def run : List Call → Subscriber × World → Option (Subscriber × World)
  | [], st => some st
  | Call.Subscribe ctx url :: rest, st =>
    let r := st.1.Subscribe ctx url st.2
    if r.panicked then none else run rest (r.s, r.world)
  | Call.Close :: rest, st =>
    let r := st.1.Close st.2
    if r.panicked then none else run rest (r.s, r.world)

/-- Whether a call is a `Subscribe`. -/
def Call.isSubscribe : Call → Bool
  | Call.Subscribe _ _ => true
  | Call.Close => false

/-- Whether the channel `ch` of a heap is closed. -/
def chanClosed (chans : List Chan) (ch : Nat) : Bool :=
  match chans.get? ch with
  | none => false
  | some c => c.closed

/-- Whether the channel `ch` of the world is closed. -/
def World.isClosed (world : World) (ch : Nat) : Bool := chanClosed world.chans ch

/-- What holds of a Subscriber in every state its methods reach: the registry has no channel
twice, every channel of it is in the heap, and none of them is closed before `Close`. -/
def Subscriber.Inv (s : Subscriber) (world : World) : Prop :=
  s.outputChannels.Nodup ∧ (∀ ch ∈ s.outputChannels, ch < world.chans.length) ∧
    (s.closed = false → ∀ ch ∈ s.outputChannels, chanClosed world.chans ch = false)

/-- The body of the spec's example:
`{"message":{"data":"aGVsbG8=","attributes":{"_watermill_message_uuid":"42","foo":"bar"}},"subscription":"s"}`. -/
def exampleBody : String :=
  "\x7b\"message\":\x7b\"data\":\"aGVsbG8=\",\"attributes\":" ++
    "\x7b\"_watermill_message_uuid\":\"42\",\"foo\":\"bar\"\x7d\x7d,\"subscription\":\"s\"\x7d"

/-- The envelope the JSON decoder yields on `exampleBody` (no `publishTime` in the body). -/
def exampleEnvelope : pushRequest :=
  { PubsubMessage :=
      { Attributes := [(UUIDHeaderKey, "42"), ("foo", "bar")], Data := "aGVsbG8=",
        MessageId := "", OrderingKey := "", PublishTime := "" },
    Subscription := "s" }

/-- A JSON decoder that knows the example body only. -/
def exampleJsonDecode (body : String) : Except GoError pushRequest :=
  if body = exampleBody then Except.ok exampleEnvelope else Except.error "invalid character"

/-- An envelope with an attribute named `publishTime`. -/
def publishTimeEnvelope : pushRequest :=
  { PubsubMessage :=
      { Attributes := [("publishTime", "yesterday")], Data := "aGVsbG8=",
        MessageId := "1", OrderingKey := "", PublishTime := "2021-02-26T19:13:55.749Z" },
    Subscription := "s" }

/-- An envelope whose data has non-zero trailing bits in its last quantum (`9` for `8`). -/
def trailingBitsEnvelope : pushRequest :=
  { PubsubMessage :=
      { Attributes := [], Data := "aGVsbG9=",
        MessageId := "1", OrderingKey := "", PublishTime := "" },
    Subscription := "s" }

/-- An envelope whose data has a line break in it. -/
def lineBreakEnvelope : pushRequest :=
  { PubsubMessage :=
      { Attributes := [], Data := "aGVs\nbG8=",
        MessageId := "1", OrderingKey := "", PublishTime := "" },
    Subscription := "s" }

/-- The message `DefaultUnmarshalMessageFunc` yields on the example body. -/
def exampleMessage : Message :=
  { UUID := "42", Metadata := [("foo", "bar"), ("publishTime", "")],
    Payload := [104, 101, 108, 108, 111], ctx := none }

/-- A configuration with a callback and the default decode function. -/
def exampleConfig : SubscriberConfig :=
  { RegisterHttpHandler := some { mux := 0 },
    UnmarshalMessageFunc := some (DefaultUnmarshalMessageFunc exampleJsonDecode) }

/-- A handler on channel 0. -/
def exampleHandler : PushHandler :=
  { config := exampleConfig, logger := LoggerAdapter.NopLogger, messages := 0, ctx := 0,
    url := "push" }

/-- A world with one open channel. -/
def exampleWorld : World :=
  { chans := [{ closed := false, delivered := [] }], contexts := [], registered := [],
    log := [] }

/-- A world without any channel. -/
def emptyWorld : World := { chans := [], contexts := [], registered := [], log := [] }

/-- A Subscriber as `NewSubscriber` builds it from `exampleConfig`. -/
def exampleSubscriber : Subscriber :=
  { config := exampleConfig, logger := LoggerAdapter.NopLogger, outputChannels := [],
    closed := false }

/-- What one step of the scanner from a state without error, before the end of the top-level
value, leaves. -/
def StepOK (c : Char) (r : scanner × ScanCode) : Prop :=
  (r.2 = ScanCode.scanError ∧ r.1.endTop = false) ∨
  r.2 = ScanCode.scanEnd ∨
  ((r.2 = ScanCode.scanEndObject ∨ r.2 = ScanCode.scanEndArray) ∧ (c = '}' ∨ c = ']') ∧
    r.1.err = none ∧
    (r.1.parseState = [] ∨
      (r.1.parseState ≠ [] ∧ r.1.step = ScanState.stateEndValue ∧ r.1.endTop = false))) ∨
  (r.2 ≠ ScanCode.scanEndObject ∧ r.2 ≠ ScanCode.scanEndArray ∧ r.2 ≠ ScanCode.scanEnd ∧
    r.2 ≠ ScanCode.scanError ∧ r.1.err = none ∧ r.1.endTop = false)

/-- The example body followed by text that is not JSON. -/
def trailingBody : String := exampleBody ++ " trailing"

/-- An unmarshal step that knows the example value only. -/
def exampleUnmarshal (value : String) : Except GoError pushRequest :=
  if value = exampleBody then Except.ok exampleEnvelope
  else Except.error "json: cannot unmarshal"

/-- A handler on channel 0 whose decode function is the default one on the JSON decoder. -/
def decoderHandler : PushHandler :=
  { config :=
      { RegisterHttpHandler := some { mux := 0 },
        UnmarshalMessageFunc :=
          some (DefaultUnmarshalMessageFunc (Decoder.Decode exampleUnmarshal)) },
    logger := LoggerAdapter.NopLogger, messages := 0, ctx := 0, url := "push" }

/-! ## Lemmas on metadata and on the attribute loop -/

theorem Metadata.lookup_Set (m : Metadata) (key value k : String) :
    Metadata.lookup (Metadata.Set m key value) k =
      if key = k then some value else Metadata.lookup m k := by
  induction m with
  | nil => simp [Metadata.Set, Metadata.lookup]
  | cons kv rest ih =>
    obtain ⟨a, b⟩ := kv
    by_cases hak : a = key
    · subst hak
      by_cases hk : a = k <;> simp [Metadata.Set, Metadata.lookup, hk]
    · by_cases hk : a = k
      · subst hk
        have hne : ¬ key = a := fun h => hak h.symm
        simp [Metadata.Set, Metadata.lookup, hak, hne]
      · simp [Metadata.Set, Metadata.lookup, hak, hk, ih]

theorem Metadata.lookup_eq_none (m : Metadata) (k : String) (h : k ∉ m.map Prod.fst) :
    Metadata.lookup m k = none := by
  induction m with
  | nil => rfl
  | cons kv rest ih =>
    obtain ⟨a, b⟩ := kv
    simp only [List.map_cons, List.mem_cons, not_or] at h
    have hne : ¬ a = k := fun e => h.1 e.symm
    simp [Metadata.lookup, hne, ih h.2]

/-- The identifier the loop leaves: the value of the reserved key, the initial one without it. -/
theorem foldl_attributeStep_id (attrs : List (String × String)) :
    ∀ (id : String) (md : Metadata), (attrs.map Prod.fst).Nodup →
      (attrs.foldl attributeStep (id, md)).1 =
        (Metadata.lookup attrs UUIDHeaderKey).getD id := by
  induction attrs with
  | nil => intro id md _; rfl
  | cons kv rest ih =>
    intro id md hnd
    obtain ⟨a, b⟩ := kv
    simp only [List.map_cons, List.nodup_cons] at hnd
    by_cases ha : a = UUIDHeaderKey
    · subst ha
      have hnone := Metadata.lookup_eq_none rest UUIDHeaderKey hnd.1
      simp [attributeStep, Metadata.lookup, ih _ md hnd.2, hnone]
    · simp [attributeStep, Metadata.lookup, ha, ih id _ hnd.2]

/-- The reserved key never enters the metadata. -/
theorem foldl_attributeStep_uuid (attrs : List (String × String)) :
    ∀ (id : String) (md : Metadata),
      Metadata.lookup (attrs.foldl attributeStep (id, md)).2 UUIDHeaderKey =
        Metadata.lookup md UUIDHeaderKey := by
  induction attrs with
  | nil => intro id md; rfl
  | cons kv rest ih =>
    intro id md
    obtain ⟨a, b⟩ := kv
    by_cases ha : a = UUIDHeaderKey
    · simp [attributeStep, ha, ih]
    · simp [attributeStep, ha, ih, Metadata.lookup_Set]

/-- Every other key has the value the attributes give it, else the one it had. -/
theorem foldl_attributeStep_lookup (attrs : List (String × String)) :
    ∀ (id : String) (md : Metadata) (k : String), (attrs.map Prod.fst).Nodup →
      k ≠ UUIDHeaderKey →
      Metadata.lookup (attrs.foldl attributeStep (id, md)).2 k =
        match Metadata.lookup attrs k with
        | some v => some v
        | none => Metadata.lookup md k := by
  induction attrs with
  | nil => intro id md k _ _; rfl
  | cons kv rest ih =>
    intro id md k hnd hk
    obtain ⟨a, b⟩ := kv
    simp only [List.map_cons, List.nodup_cons] at hnd
    by_cases ha : a = UUIDHeaderKey
    · have hak : ¬ a = k := fun e => hk (e ▸ ha)
      simp [attributeStep, ha, Metadata.lookup, ih _ md k hnd.2 hk]
      rw [← ha]; simp [hak]
    · by_cases hak : a = k
      · subst hak
        have hnone := Metadata.lookup_eq_none rest a hnd.1
        simp [attributeStep, ha, Metadata.lookup, ih id _ a hnd.2 hk, hnone,
          Metadata.lookup_Set]
      · simp [attributeStep, ha, Metadata.lookup, ih id _ k hnd.2 hk, hak,
          Metadata.lookup_Set]

theorem Metadata.lookup_of_mem (m : Metadata) (k v : String)
    (hnd : (m.map Prod.fst).Nodup) (h : (k, v) ∈ m) : Metadata.lookup m k = some v := by
  induction m with
  | nil => simp at h
  | cons kv rest ih =>
    obtain ⟨a, b⟩ := kv
    simp only [List.map_cons, List.nodup_cons] at hnd
    simp only [List.mem_cons, Prod.mk.injEq] at h
    rcases h with ⟨rfl, rfl⟩ | h
    · simp [Metadata.lookup]
    · have hne : ¬ a = k := by
        intro e
        subst e
        exact hnd.1 (List.mem_map.mpr ⟨(a, v), h, rfl⟩)
      simp [Metadata.lookup, hne, ih hnd.2 h]

/-- The message `DefaultUnmarshalMessageFunc` returns when the body parses and the data
decodes. -/
theorem DefaultUnmarshalMessageFunc_ok (jsonDecode : String → Except GoError pushRequest)
    (r : Request) (p : pushRequest) (hjson : jsonDecode r.Body = Except.ok p)
    (hdata : (StdEncoding.DecodeString p.PubsubMessage.Data).2 = false) :
    DefaultUnmarshalMessageFunc jsonDecode r =
      (some { UUID := (p.PubsubMessage.Attributes.foldl attributeStep ("", [])).1,
              Metadata := Metadata.Set
                (p.PubsubMessage.Attributes.foldl attributeStep ("", [])).2
                "publishTime" p.PubsubMessage.PublishTime,
              Payload := (StdEncoding.DecodeString p.PubsubMessage.Data).1,
              ctx := none }, none) := by
  unfold DefaultUnmarshalMessageFunc
  rw [hjson]
  cases hd : StdEncoding.DecodeString p.PubsubMessage.Data with
  | mk payload err =>
    rw [hd] at hdata
    simp only at hdata
    subst hdata
    simp only [hd, NewMessage]

/-! ## Lemmas on the base64 alphabet and on the packing of a quantum -/

theorem lor_eq_add_of_dvd (a b i : Nat) (ha : 2 ^ i ∣ a) (hb : b < 2 ^ i) :
    a ||| b = a + b := by
  obtain ⟨k, rfl⟩ := ha
  exact (Nat.mul_add_lt_is_or hb k).symm

theorem pack_sextets (d0 d1 d2 d3 : Nat) (h1 : d1 < 64) (h2 : d2 < 64) (h3 : d3 < 64) :
    d0 <<< 18 ||| d1 <<< 12 ||| d2 <<< 6 ||| d3 =
      d0 * 262144 + d1 * 4096 + d2 * 64 + d3 := by
  simp only [Nat.shiftLeft_eq]
  rw [lor_eq_add_of_dvd (d0 * 2 ^ 18) (d1 * 2 ^ 12) 18 (by norm_num) (by norm_num; omega),
    lor_eq_add_of_dvd (d0 * 2 ^ 18 + d1 * 2 ^ 12) (d2 * 2 ^ 6) 12
      (by norm_num; omega) (by norm_num; omega),
    lor_eq_add_of_dvd (d0 * 2 ^ 18 + d1 * 2 ^ 12 + d2 * 2 ^ 6) d3 6
      (by norm_num; omega) (by norm_num; omega)]

theorem pack_bytes (b0 b1 b2 : Nat) (h1 : b1 < 256) (h2 : b2 < 256) :
    b0 <<< 16 ||| b1 <<< 8 ||| b2 = b0 * 65536 + b1 * 256 + b2 := by
  simp only [Nat.shiftLeft_eq]
  rw [lor_eq_add_of_dvd (b0 * 2 ^ 16) (b1 * 2 ^ 8) 16 (by norm_num) (by norm_num; omega),
    lor_eq_add_of_dvd (b0 * 2 ^ 16 + b1 * 2 ^ 8) b2 8 (by norm_num; omega) (by norm_num; omega)]

theorem pack_bytes_two (b0 b1 : Nat) (h1 : b1 < 256) :
    b0 <<< 16 ||| b1 <<< 8 = b0 * 65536 + b1 * 256 := by
  simp only [Nat.shiftLeft_eq]
  rw [lor_eq_add_of_dvd (b0 * 2 ^ 16) (b1 * 2 ^ 8) 16 (by norm_num) (by norm_num; omega)]

theorem and_0x3F (x : Nat) : x &&& 0x3F = x % 64 := Nat.and_pow_two_sub_one_eq_mod x 6

/-- A character the decode map accepts is the alphabet character of its sextet. -/
theorem decodeMap_spec (c : Char) (h : StdEncoding.decodeMap c ≠ 0xff) :
    StdEncoding.decodeMap c < 64 ∧ StdEncoding.encodeAt (StdEncoding.decodeMap c) = c := by
  unfold Encoding.decodeMap at h ⊢
  by_cases hlt : List.indexOf c StdEncoding.encode < 64
  · have hlen : List.indexOf c StdEncoding.encode < StdEncoding.encode.length := by
      have : StdEncoding.encode.length = 64 := by decide
      omega
    simp only [hlt, if_true]
    refine ⟨trivial, ?_⟩
    unfold Encoding.encodeAt
    rw [List.getD_eq_getElem _ _ hlen]
    exact List.getElem_indexOf hlen
  · simp [hlt] at h

theorem convert_four (enc : Encoding) (d0 d1 d2 d3 : Nat) (h0 : d0 < 64) (h1 : d1 < 64)
    (h2 : d2 < 64) (h3 : d3 < 64) :
    ∃ b0 b1 b2, enc.convert [d0, d1, d2, d3] false = ([b0, b1, b2], false) ∧
      ∀ rest, StdEncoding.Encode (b0 :: b1 :: b2 :: rest) =
        StdEncoding.encodeAt d0 :: StdEncoding.encodeAt d1 :: StdEncoding.encodeAt d2 ::
          StdEncoding.encodeAt d3 :: StdEncoding.Encode rest := by
  refine ⟨_, _, _, rfl, ?_⟩
  intro rest
  simp only [List.getD_cons_zero, List.getD_cons_succ, pack_sextets d0 d1 d2 d3 h1 h2 h3,
    Nat.shiftRight_eq_div_pow]
  rw [Encoding.Encode]
  simp only [and_0x3F, Nat.shiftRight_eq_div_pow]
  rw [pack_bytes _ _ _ (Nat.mod_lt _ (by norm_num)) (Nat.mod_lt _ (by norm_num))]
  have e0 : (((d0 * 262144 + d1 * 4096 + d2 * 64 + d3) / 2 ^ 16 % 256 * 65536 +
      (d0 * 262144 + d1 * 4096 + d2 * 64 + d3) / 2 ^ 8 % 256 * 256 +
      (d0 * 262144 + d1 * 4096 + d2 * 64 + d3) % 256)) = d0 * 262144 + d1 * 4096 + d2 * 64 + d3 := by
    norm_num
    omega
  rw [e0]
  have a0 : (d0 * 262144 + d1 * 4096 + d2 * 64 + d3) / 2 ^ 18 % 64 = d0 := by norm_num; omega
  have a1 : (d0 * 262144 + d1 * 4096 + d2 * 64 + d3) / 2 ^ 12 % 64 = d1 := by norm_num; omega
  have a2 : (d0 * 262144 + d1 * 4096 + d2 * 64 + d3) / 2 ^ 6 % 64 = d2 := by norm_num; omega
  have a3 : (d0 * 262144 + d1 * 4096 + d2 * 64 + d3) % 64 = d3 := by omega
  rw [a0, a1, a2, a3]

theorem convert_three (d0 d1 d2 : Nat) (h0 : d0 < 64) (h1 : d1 < 64) (h2 : d2 < 64)
    (e : Bool) (p : List Nat)
    (h : (StdEncoding.Strict).convert [d0, d1, d2] e = (p, false)) :
    e = false ∧ StdEncoding.Encode p =
      [StdEncoding.encodeAt d0, StdEncoding.encodeAt d1, StdEncoding.encodeAt d2, '='] := by
  have hv := pack_sextets d0 d1 d2 0 h1 h2 (by norm_num)
  simp only [Encoding.convert, List.getD_cons_zero, List.getD_cons_succ, List.getD_nil,
    List.length_cons, List.length_nil, hv, Nat.shiftRight_eq_div_pow, Encoding.Strict,
    true_and] at h
  split at h
  · simp at h
  · rename_i hb
    simp only [Prod.mk.injEq] at h
    obtain ⟨hp, he⟩ := h
    subst hp
    refine ⟨he, ?_⟩
    rw [Encoding.Encode]
    simp only [and_0x3F, Nat.shiftRight_eq_div_pow]
    rw [pack_bytes_two _ _ (Nat.mod_lt _ (by norm_num))]
    have hb2 := not_not.mp hb
    have e0 : ((d0 * 262144 + d1 * 4096 + d2 * 64 + 0) / 2 ^ 16 % 256 * 65536 +
        (d0 * 262144 + d1 * 4096 + d2 * 64 + 0) / 2 ^ 8 % 256 * 256) =
        d0 * 262144 + d1 * 4096 + d2 * 64 := by
      norm_num
      omega
    rw [e0]
    have a0 : (d0 * 262144 + d1 * 4096 + d2 * 64) / 2 ^ 18 % 64 = d0 := by norm_num; omega
    have a1 : (d0 * 262144 + d1 * 4096 + d2 * 64) / 2 ^ 12 % 64 = d1 := by norm_num; omega
    have a2 : (d0 * 262144 + d1 * 4096 + d2 * 64) / 2 ^ 6 % 64 = d2 := by norm_num; omega
    rw [a0, a1, a2]
    rfl

theorem convert_two (d0 d1 : Nat) (h0 : d0 < 64) (h1 : d1 < 64)
    (e : Bool) (p : List Nat)
    (h : (StdEncoding.Strict).convert [d0, d1] e = (p, false)) :
    e = false ∧ StdEncoding.Encode p =
      [StdEncoding.encodeAt d0, StdEncoding.encodeAt d1, '=', '='] := by
  have hv := pack_sextets d0 d1 0 0 h1 (by norm_num) (by norm_num)
  simp only [Encoding.convert, List.getD_cons_zero, List.getD_cons_succ, List.getD_nil,
    List.length_cons, List.length_nil, hv, Nat.shiftRight_eq_div_pow, Encoding.Strict,
    true_and] at h
  split at h
  · simp at h
  · rename_i hb
    simp only [Prod.mk.injEq] at h
    obtain ⟨hp, he⟩ := h
    subst hp
    refine ⟨he, ?_⟩
    rw [Encoding.Encode]
    simp only [and_0x3F, Nat.shiftRight_eq_div_pow, Nat.shiftLeft_eq]
    have hb1 := not_not.mp (not_or.mp hb).1
    have hb2 := not_not.mp (not_or.mp hb).2
    have e0 : ((d0 * 262144 + d1 * 4096 + 0 * 64 + 0) / 2 ^ 16 % 256 * 2 ^ 16) =
        d0 * 262144 + d1 * 4096 := by
      simp only [Nat.reducePow] at hb1 hb2 ⊢
      omega
    rw [e0]
    have a0 : (d0 * 262144 + d1 * 4096) / 2 ^ 18 % 64 = d0 := by norm_num; omega
    have a1 : (d0 * 262144 + d1 * 4096) / 2 ^ 12 % 64 = d1 := by norm_num; omega
    rw [a0, a1]
    rfl

theorem convert_of_strict (dbuf : List Nat) (e : Bool) (p : List Nat)
    (h : (StdEncoding.Strict).convert dbuf e = (p, false)) :
    StdEncoding.convert dbuf e = (p, false) := by
  unfold Encoding.convert at h ⊢
  simp only [Encoding.Strict, StdEncoding, true_and, false_and, if_false,
    Bool.false_eq_true] at h ⊢
  split at h
  · exact h
  · split at h
    · simp at h
    · exact h
  · split at h
    · simp at h
    · exact h
  · exact h

theorem strict_decodeMap (c : Char) :
    (StdEncoding.Strict).decodeMap c = StdEncoding.decodeMap c := rfl

theorem skipNewlines_eq (s : List Char) (h : ∀ c ∈ s, c ≠ '\n' ∧ c ≠ '\r') :
    skipNewlines s = s := by
  cases s with
  | nil => rfl
  | cons c rest =>
    have hc := h c (List.mem_cons_self _ _)
    simp [skipNewlines, hc.1, hc.2]

/-- Strict decoding of an input without line breaks: the standard encoding of the bytes
decoded is the input again, the sextets already read in front. -/
theorem strict_decodeFrom_canonical (s : List Char) :
    ∀ (dbuf p : List Nat), dbuf.length ≤ 3 → (∀ d ∈ dbuf, d < 64) →
      (∀ c ∈ s, c ≠ '\n' ∧ c ≠ '\r') →
      (StdEncoding.Strict).decodeFrom s dbuf = (p, false) →
      StdEncoding.Encode p = dbuf.map StdEncoding.encodeAt ++ s := by
  induction s with
  | nil =>
    intro dbuf p hlen hd hnl h
    cases dbuf with
    | nil =>
      simp [Encoding.decodeFrom] at h
      subst h
      rfl
    | cons d ds =>
      simp [Encoding.decodeFrom, Encoding.Strict, StdEncoding] at h
  | cons c rest ih =>
    intro dbuf p hlen hd hnl h
    have hc := hnl c (List.mem_cons_self _ _)
    have hrest : ∀ x ∈ rest, x ≠ '\n' ∧ x ≠ '\r' :=
      fun x hx => hnl x (List.mem_cons_of_mem _ hx)
    rw [Encoding.decodeFrom] at h
    by_cases hm : StdEncoding.decodeMap c = 0xff
    · have hm2 : (StdEncoding.Strict).decodeMap c = 0xff := hm
      simp only [hm2, ne_eq, not_true_eq_false, if_false, hc.1, hc.2, or_self] at h
      by_cases hp : some c = (StdEncoding.Strict).padChar
      · simp only [hp, not_true_eq_false, if_false] at h
        have hceq : c = '=' := by
          simp only [Encoding.Strict, StdEncoding, Option.some.injEq] at hp
          exact hp
        subst hceq
        match dbuf, hlen, hd, h with
        | [], _, _, h => simp at h
        | [d0], _, _, h => simp at h
        | [d0, d1], _, hd2, h2 =>
          simp only [List.length_cons, List.length_nil, skipNewlines_eq rest hrest] at h2
          clear h
          cases rest with
          | nil => simp at h2
          | cons c2 rest2 =>
            have hrest2 : ∀ x ∈ rest2, x ≠ '\n' ∧ x ≠ '\r' :=
              fun x hx => hrest x (List.mem_cons_of_mem _ hx)
            simp only [skipNewlines_eq rest2 hrest2] at h2
            by_cases hp2 : some c2 = (StdEncoding.Strict).padChar
            · simp only [hp2, not_true_eq_false, if_false] at h2
              have hc2 : c2 = '=' := by
                simp only [Encoding.Strict, StdEncoding, Option.some.injEq] at hp2
                exact hp2
              subst hc2
              obtain ⟨he, henc⟩ :=
                convert_two d0 d1 (hd2 d0 (by simp)) (hd2 d1 (by simp)) _ p h2
              have hnil : rest2 = [] := by simpa using he
              subst hnil
              rw [henc]
              rfl
            · simp [hp2] at h2
        | [d0, d1, d2], _, hd2, h2 =>
          simp only [List.length_cons, List.length_nil, skipNewlines_eq rest hrest] at h2
          obtain ⟨he, henc⟩ := convert_three d0 d1 d2 (hd2 d0 (by simp)) (hd2 d1 (by simp))
            (hd2 d2 (by simp)) _ p h2
          have hnil : rest = [] := by simpa using he
          subst hnil
          rw [henc]
          rfl
        | _ :: _ :: _ :: _ :: _, hlen, _, _ => simp at hlen
      · simp only [hp, not_false_eq_true, if_true] at h
        simp at h
    · have hm2 : (StdEncoding.Strict).decodeMap c ≠ 0xff := hm
      obtain ⟨hlt, henc⟩ := decodeMap_spec c hm
      simp only [hm2, ne_eq, not_false_eq_true, if_true] at h
      by_cases h3 : dbuf.length = 3
      · simp only [h3, if_true] at h
        match dbuf, h3, hd, h with
        | [d0, d1, d2], _, hd2, h2 =>
          obtain ⟨b0, b1, b2, hconv, henc4⟩ := convert_four (StdEncoding.Strict) d0 d1 d2
            (StdEncoding.decodeMap c) (hd2 d0 (by simp)) (hd2 d1 (by simp)) (hd2 d2 (by simp))
            hlt
          rw [strict_decodeMap] at h2
          simp only [List.cons_append, List.nil_append, hconv, Prod.mk.injEq] at h2
          obtain ⟨hp1, hp2⟩ := h2
          have hq := ih [] ((StdEncoding.Strict).decodeFrom rest []).1 (by simp) (by simp)
            hrest (Prod.ext rfl hp2)
          rw [← hp1]
          simp only [List.cons_append, List.nil_append, henc4, hq, henc, List.map_cons,
            List.map_nil]
      · simp only [h3, if_false] at h
        have hq := ih (dbuf ++ [(StdEncoding.Strict).decodeMap c]) p
          (by simp only [List.length_append, List.length_cons, List.length_nil]; omega)
          (by
            intro d hdm
            rcases List.mem_append.mp hdm with hdm | hdm
            · exact hd d hdm
            · simp only [List.mem_singleton] at hdm
              subst hdm
              exact hlt)
          hrest h
        rw [hq, strict_decodeMap]
        simp [henc]

theorem strict_padChar : (StdEncoding.Strict).padChar = StdEncoding.padChar := rfl

/-- What the strict decoder accepts, the standard decoder decodes to the same bytes. -/
theorem decodeFrom_of_strict (s : List Char) :
    ∀ (dbuf p : List Nat), (StdEncoding.Strict).decodeFrom s dbuf = (p, false) →
      StdEncoding.decodeFrom s dbuf = (p, false) := by
  induction s with
  | nil =>
    intro dbuf p h
    rw [Encoding.decodeFrom] at h ⊢
    simp only [strict_padChar] at h
    split at h
    · rename_i h0
      simpa [h0] using h
    · rename_i h0
      split at h
      · simp at h
      · rename_i h1
        simp [StdEncoding] at h1
  | cons c rest ih =>
    intro dbuf p h
    rw [Encoding.decodeFrom] at h ⊢
    simp only [strict_padChar, strict_decodeMap] at h
    by_cases hm : StdEncoding.decodeMap c ≠ 0xff
    · rw [if_pos hm] at h ⊢
      by_cases h3 : dbuf.length = 3
      · rw [if_pos h3] at h ⊢
        cases hcv : (StdEncoding.Strict).convert (dbuf ++ [StdEncoding.decodeMap c]) false with
        | mk bytes e =>
          rw [hcv] at h
          cases e with
          | true => simp at h
          | false =>
            simp only [Prod.mk.injEq] at h
            rw [convert_of_strict _ _ _ hcv]
            simp only [ih [] _ (Prod.ext rfl h.2), h.1]
      · rw [if_neg h3] at h ⊢
        exact ih _ _ h
    · rw [if_neg hm] at h ⊢
      by_cases hnl : c = '\n' ∨ c = '\r'
      · rw [if_pos hnl] at h ⊢
        exact ih _ _ h
      · rw [if_neg hnl] at h ⊢
        by_cases hp : some c ≠ StdEncoding.padChar
        · simp [hp] at h
        · rw [if_neg hp] at h ⊢
          generalize hl : dbuf.length = n at h ⊢
          match n, h with
          | 0, h => simp at h
          | 1, h => simp at h
          | 2, h =>
            simp only at h ⊢
            cases hs : skipNewlines rest with
            | nil => simp [hs] at h
            | cons c2 rest2 =>
              simp only [hs] at h ⊢
              by_cases hp2 : some c2 ≠ StdEncoding.padChar
              · simp [hp2] at h
              · rw [if_neg hp2] at h ⊢
                exact convert_of_strict _ _ _ h
          | n + 3, h =>
            simp only at h ⊢
            exact convert_of_strict _ _ _ h

theorem encodeAt_spec : ∀ i, i < 64 →
    StdEncoding.encodeAt i ≠ '\n' ∧ StdEncoding.encodeAt i ≠ '\r' ∧
    StdEncoding.decodeMap (StdEncoding.encodeAt i) = i := by
  decide

theorem convert_bytes_lt (enc : Encoding) (dbuf : List Nat) (e : Bool) :
    ∀ b ∈ (enc.convert dbuf e).1, b < 256 := by
  intro b hb
  unfold Encoding.convert at hb
  simp only at hb
  split at hb
  · simp only [List.mem_cons, List.mem_singleton, List.not_mem_nil, or_false] at hb
    rcases hb with rfl | rfl | rfl <;> exact Nat.mod_lt _ (by norm_num)
  · split at hb
    · simp at hb
    · simp only [List.mem_cons, List.mem_singleton, List.not_mem_nil, or_false] at hb
      rcases hb with rfl | rfl <;> exact Nat.mod_lt _ (by norm_num)
  · split at hb
    · simp at hb
    · simp only [List.mem_cons, List.mem_singleton, List.not_mem_nil, or_false] at hb
      rcases hb with rfl
      exact Nat.mod_lt _ (by norm_num)
  · simp at hb

/-- Every byte the decoder yields is below 256. -/
theorem decodeFrom_bytes_lt (enc : Encoding) (s : List Char) :
    ∀ (dbuf : List Nat), ∀ b ∈ (enc.decodeFrom s dbuf).1, b < 256 := by
  induction s with
  | nil =>
    intro dbuf b hb
    rw [Encoding.decodeFrom] at hb
    split at hb
    · simp at hb
    · split at hb
      · simp at hb
      · exact convert_bytes_lt enc _ _ b hb
  | cons c rest ih =>
    intro dbuf b hb
    rw [Encoding.decodeFrom] at hb
    split at hb
    · split at hb
      · split at hb
        · rename_i bytes heq
          have := convert_bytes_lt enc (dbuf ++ [enc.decodeMap c]) false b
          rw [heq] at this
          exact this hb
        · rename_i bytes heq
          have := convert_bytes_lt enc (dbuf ++ [enc.decodeMap c]) false b
          rw [heq] at this
          simp only [List.mem_append] at hb
          rcases hb with hb | hb
          · exact this hb
          · exact ih _ b hb
      · exact ih _ b hb
    · split at hb
      · exact ih _ b hb
      · split at hb
        · simp at hb
        · split at hb
          · simp at hb
          · simp at hb
          · split at hb
            · simp at hb
            · split at hb
              · simp at hb
              · exact convert_bytes_lt enc _ _ b hb
          · exact convert_bytes_lt enc _ _ b hb

theorem strict_decodeFrom_alpha (i : Nat) (hi : i < 64) (rest : List Char) (dbuf : List Nat)
    (h3 : dbuf.length ≠ 3) :
    (StdEncoding.Strict).decodeFrom (StdEncoding.encodeAt i :: rest) dbuf =
      (StdEncoding.Strict).decodeFrom rest (dbuf ++ [i]) := by
  have h := (encodeAt_spec i hi).2.2
  have hne : StdEncoding.decodeMap (StdEncoding.encodeAt i) ≠ 0xff := by
    rw [h]; omega
  rw [Encoding.decodeFrom]
  simp only [strict_decodeMap]
  rw [if_pos hne, if_neg h3, h]

theorem strict_decodeFrom_alpha_full (i : Nat) (hi : i < 64) (rest : List Char)
    (d0 d1 d2 : Nat) (bytes : List Nat)
    (hc : (StdEncoding.Strict).convert [d0, d1, d2, i] false = (bytes, false)) :
    (StdEncoding.Strict).decodeFrom (StdEncoding.encodeAt i :: rest) [d0, d1, d2] =
      (bytes ++ ((StdEncoding.Strict).decodeFrom rest []).1,
        ((StdEncoding.Strict).decodeFrom rest []).2) := by
  have h := (encodeAt_spec i hi).2.2
  have hne : StdEncoding.decodeMap (StdEncoding.encodeAt i) ≠ 0xff := by
    rw [h]; omega
  rw [Encoding.decodeFrom]
  simp only [strict_decodeMap]
  rw [if_pos hne, if_pos (by rfl), h]
  simp only [List.cons_append, List.nil_append, hc]

theorem strict_decodeFrom_pad2 (d0 d1 : Nat) (bytes : List Nat)
    (hc : (StdEncoding.Strict).convert [d0, d1] false = (bytes, false)) :
    (StdEncoding.Strict).decodeFrom ['=', '='] [d0, d1] = (bytes, false) := by
  rw [Encoding.decodeFrom]
  have hm : (StdEncoding.Strict).decodeMap '=' = 0xff := by decide
  simp [hm, Encoding.Strict, StdEncoding, skipNewlines]
  simpa [Encoding.Strict, StdEncoding] using hc

theorem strict_decodeFrom_pad1 (d0 d1 d2 : Nat) (bytes : List Nat)
    (hc : (StdEncoding.Strict).convert [d0, d1, d2] false = (bytes, false)) :
    (StdEncoding.Strict).decodeFrom ['='] [d0, d1, d2] = (bytes, false) := by
  rw [Encoding.decodeFrom]
  have hm : (StdEncoding.Strict).decodeMap '=' = 0xff := by decide
  simp [hm, Encoding.Strict, StdEncoding, skipNewlines]
  simpa [Encoding.Strict, StdEncoding] using hc

theorem std_padChar : StdEncoding.padChar = some '=' := rfl

theorem convert_encode_four (b0 b1 b2 : Nat) (h0 : b0 < 256) (h1 : b1 < 256)
    (h2 : b2 < 256) :
    (StdEncoding.Strict).convert
      [(b0 * 65536 + b1 * 256 + b2) / 2 ^ 18 % 64, (b0 * 65536 + b1 * 256 + b2) / 2 ^ 12 % 64,
        (b0 * 65536 + b1 * 256 + b2) / 2 ^ 6 % 64, (b0 * 65536 + b1 * 256 + b2) % 64] false =
      ([b0, b1, b2], false) := by
  simp only [Encoding.convert, List.getD_cons_zero, List.getD_cons_succ, List.length_cons,
    List.length_nil, Nat.shiftRight_eq_div_pow]
  rw [pack_sextets _ _ _ _ (Nat.mod_lt _ (by norm_num)) (Nat.mod_lt _ (by norm_num))
    (Nat.mod_lt _ (by norm_num))]
  have e : (b0 * 65536 + b1 * 256 + b2) / 2 ^ 18 % 64 * 262144 +
      (b0 * 65536 + b1 * 256 + b2) / 2 ^ 12 % 64 * 4096 +
      (b0 * 65536 + b1 * 256 + b2) / 2 ^ 6 % 64 * 64 + (b0 * 65536 + b1 * 256 + b2) % 64 =
      b0 * 65536 + b1 * 256 + b2 := by
    simp only [Nat.reducePow]
    omega
  rw [e]
  have a0 : (b0 * 65536 + b1 * 256 + b2) / 2 ^ 16 % 256 = b0 := by
    simp only [Nat.reducePow]; omega
  have a1 : (b0 * 65536 + b1 * 256 + b2) / 2 ^ 8 % 256 = b1 := by
    simp only [Nat.reducePow]; omega
  have a2 : (b0 * 65536 + b1 * 256 + b2) % 256 = b2 := by omega
  rw [a0, a1, a2]

theorem convert_encode_three (b0 b1 : Nat) (h0 : b0 < 256) (h1 : b1 < 256) :
    (StdEncoding.Strict).convert
      [(b0 * 65536 + b1 * 256) / 2 ^ 18 % 64, (b0 * 65536 + b1 * 256) / 2 ^ 12 % 64,
        (b0 * 65536 + b1 * 256) / 2 ^ 6 % 64] false = ([b0, b1], false) := by
  simp only [Encoding.convert, List.getD_cons_zero, List.getD_cons_succ, List.getD_nil,
    List.length_cons, List.length_nil, Nat.shiftRight_eq_div_pow]
  rw [pack_sextets _ _ _ 0 (Nat.mod_lt _ (by norm_num)) (Nat.mod_lt _ (by norm_num))
    (by norm_num)]
  have e : (b0 * 65536 + b1 * 256) / 2 ^ 18 % 64 * 262144 +
      (b0 * 65536 + b1 * 256) / 2 ^ 12 % 64 * 4096 +
      (b0 * 65536 + b1 * 256) / 2 ^ 6 % 64 * 64 + 0 = b0 * 65536 + b1 * 256 := by
    simp only [Nat.reducePow]
    omega
  rw [e]
  have a0 : (b0 * 65536 + b1 * 256) / 2 ^ 16 % 256 = b0 := by
    simp only [Nat.reducePow]; omega
  have a1 : (b0 * 65536 + b1 * 256) / 2 ^ 8 % 256 = b1 := by
    simp only [Nat.reducePow]; omega
  have a2 : (b0 * 65536 + b1 * 256) % 256 = 0 := by omega
  rw [a0, a1, a2]
  simp

theorem convert_encode_two (b0 : Nat) (h0 : b0 < 256) :
    (StdEncoding.Strict).convert
      [(b0 * 2 ^ 16) / 2 ^ 18 % 64, (b0 * 2 ^ 16) / 2 ^ 12 % 64] false = ([b0], false) := by
  simp only [Encoding.convert, List.getD_cons_zero, List.getD_cons_succ, List.getD_nil,
    List.length_cons, List.length_nil, Nat.shiftRight_eq_div_pow]
  rw [pack_sextets _ _ 0 0 (Nat.mod_lt _ (by norm_num)) (by norm_num) (by norm_num)]
  have e : (b0 * 2 ^ 16) / 2 ^ 18 % 64 * 262144 + (b0 * 2 ^ 16) / 2 ^ 12 % 64 * 4096 +
      0 * 64 + 0 = b0 * 65536 := by
    simp only [Nat.reducePow]
    omega
  rw [e]
  have a0 : (b0 * 65536) / 2 ^ 16 % 256 = b0 := by
    simp only [Nat.reducePow]; omega
  have a1 : (b0 * 65536) / 2 ^ 8 % 256 = 0 := by
    simp only [Nat.reducePow]; omega
  have a2 : (b0 * 65536) % 256 = 0 := by omega
  rw [a0, a1, a2]
  simp

/-- Strict decoding of the standard encoding of a byte sequence gives the bytes back. -/
theorem strict_decode_encode (n : Nat) :
    ∀ p : List Nat, p.length ≤ n → (∀ b ∈ p, b < 256) →
      (StdEncoding.Strict).decodeFrom (StdEncoding.Encode p) [] = (p, false) := by
  induction n using Nat.strong_induction_on with
  | _ n ih =>
    intro p hlen hp
    match p, hlen, hp with
    | [], _, _ => rfl
    | [b0], _, hp =>
      have h0 := hp b0 (by simp)
      rw [Encoding.Encode]
      simp only [and_0x3F, Nat.shiftRight_eq_div_pow, Nat.shiftLeft_eq, std_padChar,
        List.cons_append, List.nil_append]
      rw [strict_decodeFrom_alpha _ (Nat.mod_lt _ (by norm_num)) _ [] (by simp)]
      simp only [List.nil_append, List.cons_append]
      rw [strict_decodeFrom_alpha _ (Nat.mod_lt _ (by norm_num)) _ _ (by simp)]
      exact strict_decodeFrom_pad2 _ _ _ (convert_encode_two b0 h0)
    | [b0, b1], _, hp =>
      have h0 := hp b0 (by simp)
      have h1 := hp b1 (by simp)
      rw [Encoding.Encode]
      simp only [and_0x3F, Nat.shiftRight_eq_div_pow, std_padChar, List.cons_append,
        List.nil_append]
      rw [pack_bytes_two b0 b1 h1]
      rw [strict_decodeFrom_alpha _ (Nat.mod_lt _ (by norm_num)) _ [] (by simp)]
      simp only [List.nil_append, List.cons_append]
      rw [strict_decodeFrom_alpha _ (Nat.mod_lt _ (by norm_num)) _ _ (by simp)]
      simp only [List.nil_append, List.cons_append]
      rw [strict_decodeFrom_alpha _ (Nat.mod_lt _ (by norm_num)) _ _ (by simp)]
      exact strict_decodeFrom_pad1 _ _ _ _ (convert_encode_three b0 b1 h0 h1)
    | b0 :: b1 :: b2 :: rest, hlen, hp =>
      have h0 := hp b0 (by simp)
      have h1 := hp b1 (by simp)
      have h2 := hp b2 (by simp)
      have hrest : ∀ b ∈ rest, b < 256 := fun b hb => hp b (by simp [hb])
      simp only [List.length_cons] at hlen
      have ihr := ih rest.length (by omega) rest (le_refl _) hrest
      rw [Encoding.Encode]
      simp only [and_0x3F, Nat.shiftRight_eq_div_pow]
      rw [pack_bytes b0 b1 b2 h1 h2]
      rw [strict_decodeFrom_alpha _ (Nat.mod_lt _ (by norm_num)) _ [] (by simp)]
      simp only [List.nil_append, List.cons_append]
      rw [strict_decodeFrom_alpha _ (Nat.mod_lt _ (by norm_num)) _ _ (by simp)]
      simp only [List.nil_append, List.cons_append]
      rw [strict_decodeFrom_alpha _ (Nat.mod_lt _ (by norm_num)) _ _ (by simp)]
      simp only [List.nil_append, List.cons_append]
      rw [strict_decodeFrom_alpha_full _ (Nat.mod_lt _ (by norm_num)) _ _ _ _ _
        (convert_encode_four b0 b1 b2 h0 h1 h2), ihr]
      rfl

theorem Encode_no_newline (n : Nat) :
    ∀ p : List Nat, p.length ≤ n → ∀ c ∈ StdEncoding.Encode p, c ≠ '\n' ∧ c ≠ '\r' := by
  induction n using Nat.strong_induction_on with
  | _ n ih =>
    intro p hlen c hc
    have hal : ∀ x, StdEncoding.encodeAt (x % 64) ≠ '\n' ∧
        StdEncoding.encodeAt (x % 64) ≠ '\r' := fun x =>
      ⟨(encodeAt_spec _ (Nat.mod_lt _ (by norm_num))).1,
        (encodeAt_spec _ (Nat.mod_lt _ (by norm_num))).2.1⟩
    match p, hlen, hc with
    | [], _, hc => simp [Encoding.Encode] at hc
    | [b0], _, hc =>
      rw [Encoding.Encode] at hc
      simp only [and_0x3F, std_padChar, List.cons_append, List.nil_append, List.mem_cons,
        List.mem_singleton, List.not_mem_nil, or_false] at hc
      rcases hc with rfl | rfl | rfl | rfl
      · exact hal _
      · exact hal _
      · decide
      · decide
    | [b0, b1], _, hc =>
      rw [Encoding.Encode] at hc
      simp only [and_0x3F, std_padChar, List.cons_append, List.nil_append, List.mem_cons,
        List.mem_singleton, List.not_mem_nil, or_false] at hc
      rcases hc with rfl | rfl | rfl | rfl
      · exact hal _
      · exact hal _
      · exact hal _
      · decide
    | b0 :: b1 :: b2 :: rest, hlen, hc =>
      simp only [List.length_cons] at hlen
      rw [Encoding.Encode] at hc
      simp only [and_0x3F, List.mem_cons] at hc
      rcases hc with rfl | rfl | rfl | rfl | hc
      · exact hal _
      · exact hal _
      · exact hal _
      · exact hal _
      · exact ih rest.length (by omega) rest (le_refl _) c hc

/-- What a successful call of `DefaultUnmarshalMessageFunc` says of the data. -/
theorem DefaultUnmarshalMessageFunc_some (jsonDecode : String → Except GoError pushRequest)
    (r : Request) (p : pushRequest) (msg : Message) (hjson : jsonDecode r.Body = Except.ok p)
    (hok : DefaultUnmarshalMessageFunc jsonDecode r = (some msg, none)) :
    (StdEncoding.DecodeString p.PubsubMessage.Data).2 = false ∧
      msg.Payload = (StdEncoding.DecodeString p.PubsubMessage.Data).1 := by
  cases hd : (StdEncoding.DecodeString p.PubsubMessage.Data).2 with
  | true =>
    have e : StdEncoding.DecodeString p.PubsubMessage.Data =
        ((StdEncoding.DecodeString p.PubsubMessage.Data).1, true) := Prod.ext rfl hd
    unfold DefaultUnmarshalMessageFunc at hok
    rw [hjson] at hok
    simp only at hok
    rw [e] at hok
    simp at hok
  | false =>
    rw [DefaultUnmarshalMessageFunc_ok jsonDecode r p hjson hd] at hok
    simp only [Prod.mk.injEq, Option.some.injEq, and_true] at hok
    subst hok
    exact ⟨rfl, rfl⟩

/-! ## Lemmas on channels, `Subscribe`, `Close` and sequences of calls -/

theorem chanClosed_modify_ne (chans : List Chan) (f : Chan → Chan) (ch i : Nat) (h : ch ≠ i) :
    chanClosed (chans.modify f ch) i = chanClosed chans i := by
  simp [chanClosed, List.get?_eq_getElem?, List.getElem?_modify_ne _ _ h]

theorem chanClosed_modify_self (chans : List Chan) (ch : Nat) (h : ch < chans.length) :
    chanClosed (chans.modify (fun (c : Chan) => { c with closed := true }) ch) ch = true := by
  simp [chanClosed, List.get?_eq_getElem?, List.getElem?_modify_eq, List.getElem?_eq_getElem h]

theorem chanClosed_modify_mono (chans : List Chan) (ch i : Nat)
    (h : chanClosed chans i = true) :
    chanClosed (chans.modify (fun (c : Chan) => { c with closed := true }) ch) i = true := by
  by_cases e : ch = i
  · subst e
    have hlt : ch < chans.length := by
      by_contra hge
      have : chans[ch]? = none := List.getElem?_eq_none (by omega)
      simp [chanClosed, List.get?_eq_getElem?, this] at h
    exact chanClosed_modify_self chans ch hlt
  · rw [chanClosed_modify_ne chans _ ch i e]
    exact h

theorem closeChan_of_open (chans : List Chan) (ch : Nat) (hlt : ch < chans.length)
    (hopen : chanClosed chans ch = false) :
    closeChan chans ch =
      some (chans.modify (fun (c : Chan) => { c with closed := true }) ch) := by
  have hget : chans[ch]? = some chans[ch] := List.getElem?_eq_getElem hlt
  simp only [chanClosed, List.get?_eq_getElem?, hget] at hopen
  simp [closeChan, List.get?_eq_getElem?, hget, hopen]

theorem closeChan_eq_some (chans chans2 : List Chan) (ch : Nat)
    (h : closeChan chans ch = some chans2) :
    chans2 = chans.modify (fun (c : Chan) => { c with closed := true }) ch := by
  unfold closeChan at h
  split at h
  · simp at h
  · split at h
    · simp at h
    · simpa using h.symm

theorem closeAll_length (l : List Nat) :
    ∀ chans : List Chan, (closeAll l chans).1.length = chans.length := by
  induction l with
  | nil => intro chans; rfl
  | cons ch rest ih =>
    intro chans
    unfold closeAll
    cases hc : closeChan chans ch with
    | none => rfl
    | some chans2 =>
      simp only
      rw [ih chans2, closeChan_eq_some _ _ _ hc, List.length_modify]

theorem closeAll_mono (l : List Nat) :
    ∀ (chans : List Chan) (i : Nat), chanClosed chans i = true →
      chanClosed (closeAll l chans).1 i = true := by
  induction l with
  | nil => intro chans i h; exact h
  | cons ch rest ih =>
    intro chans i h
    unfold closeAll
    cases hc : closeChan chans ch with
    | none => exact h
    | some chans2 =>
      simp only
      apply ih
      rw [closeChan_eq_some _ _ _ hc]
      exact chanClosed_modify_mono chans ch i h

/-- The loop of `Close` on a registry of distinct open channels: no panic, and every channel
of the registry is closed afterwards. -/
theorem closeAll_ok (l : List Nat) :
    ∀ chans : List Chan, l.Nodup →
      (∀ ch ∈ l, ch < chans.length ∧ chanClosed chans ch = false) →
      (closeAll l chans).2 = false ∧ ∀ ch ∈ l, chanClosed (closeAll l chans).1 ch = true := by
  induction l with
  | nil => intro chans _ _; exact ⟨rfl, by simp⟩
  | cons ch rest ih =>
    intro chans hnd hall
    simp only [List.nodup_cons] at hnd
    have hch := hall ch (List.mem_cons_self _ _)
    have hstep := closeChan_of_open chans ch hch.1 hch.2
    have hrest : ∀ x ∈ rest,
        x < (chans.modify (fun (c : Chan) => { c with closed := true }) ch).length ∧
        chanClosed (chans.modify (fun (c : Chan) => { c with closed := true }) ch) x =
          false := by
      intro x hx
      have hne : ch ≠ x := fun e => hnd.1 (e ▸ hx)
      have hx2 := hall x (List.mem_cons_of_mem _ hx)
      rw [List.length_modify, chanClosed_modify_ne chans _ ch x hne]
      exact hx2
    obtain ⟨h1, h2⟩ := ih _ hnd.2 hrest
    unfold closeAll
    rw [hstep]
    refine ⟨h1, ?_⟩
    intro x hx
    rcases List.mem_cons.mp hx with rfl | hx
    · exact closeAll_mono rest _ x (chanClosed_modify_self chans x hch.1)
    · exact h2 x hx

theorem chanClosed_append_left (chans : List Chan) (c : Chan) (i : Nat)
    (h : i < chans.length) : chanClosed (chans ++ [c]) i = chanClosed chans i := by
  simp [chanClosed, List.get?_eq_getElem?, List.getElem?_append_left h]

theorem chanClosed_append_mono (chans : List Chan) (c : Chan) (i : Nat)
    (h : chanClosed chans i = true) : chanClosed (chans ++ [c]) i = true := by
  by_cases hlt : i < chans.length
  · rw [chanClosed_append_left chans c i hlt]
    exact h
  · have : chans[i]? = none := List.getElem?_eq_none (by omega)
    simp [chanClosed, List.get?_eq_getElem?, this] at h

theorem Subscribe_inv (s : Subscriber) (ctx : Nat) (url : String) (world : World)
    (h : s.Inv world) :
    (s.Subscribe ctx url world).s.Inv (s.Subscribe ctx url world).world := by
  obtain ⟨hnd, hlt, hopen⟩ := h
  have hs : (s.Subscribe ctx url world).s =
      { s with outputChannels := s.outputChannels ++ [world.chans.length] } := by
    cases hr : s.config.RegisterHttpHandler <;> simp [Subscriber.Subscribe, hr]
  have hw : (s.Subscribe ctx url world).world.chans =
      world.chans ++ [{ closed := false, delivered := [] }] := by
    cases hr : s.config.RegisterHttpHandler <;> simp [Subscriber.Subscribe, hr]
  unfold Subscriber.Inv
  rw [hs, hw]
  refine ⟨?_, ?_, ?_⟩
  · refine List.Nodup.append hnd (List.nodup_singleton _) ?_
    intro x hx hx2
    have := hlt x hx
    simp only [List.mem_singleton] at hx2
    omega
  · intro ch hch
    simp only [List.length_append, List.length_singleton]
    rcases List.mem_append.mp hch with hch | hch
    · have := hlt ch hch
      omega
    · simp only [List.mem_singleton] at hch
      omega
  · intro hc ch hch
    rcases List.mem_append.mp hch with hch | hch
    · rw [chanClosed_append_left _ _ _ (hlt ch hch)]
      exact hopen hc ch hch
    · simp only [List.mem_singleton] at hch
      subst hch
      simp [chanClosed, List.get?_eq_getElem?]

theorem Subscribe_facts (s : Subscriber) (ctx : Nat) (url : String) (world : World) :
    (s.Subscribe ctx url world).s.config = s.config ∧
    (s.Subscribe ctx url world).s.closed = s.closed ∧
    (s.Subscribe ctx url world).s.outputChannels = s.outputChannels ++ [world.chans.length] ∧
    (s.Subscribe ctx url world).world.chans =
      world.chans ++ [{ closed := false, delivered := [] }] ∧
    ((s.Subscribe ctx url world).panicked = true ↔ s.config.RegisterHttpHandler = none) := by
  cases hr : s.config.RegisterHttpHandler <;> simp [Subscriber.Subscribe, hr]

theorem Close_facts (s : Subscriber) (world : World) :
    (s.Close world).s.config = s.config ∧
    (s.Close world).s.closed = true ∧
    (s.Close world).s.outputChannels = s.outputChannels ∧
    (s.Close world).world.chans.length = world.chans.length ∧
    (∀ i, chanClosed world.chans i = true → chanClosed (s.Close world).world.chans i = true) := by
  unfold Subscriber.Close
  by_cases hc : s.closed = true
  · simp [hc]
  · simp only [hc, if_false]
    exact ⟨rfl, rfl, rfl, closeAll_length _ _, fun i hi => closeAll_mono _ _ i hi⟩

/-- The first `Close` of a Subscriber in a reachable state: no panic, and every channel of
the registry is closed afterwards. -/
theorem Close_of_open (s : Subscriber) (world : World) (h : s.Inv world)
    (hopen : s.closed = false) :
    (s.Close world).panicked = false ∧
    ∀ ch ∈ s.outputChannels, chanClosed (s.Close world).world.chans ch = true := by
  obtain ⟨hnd, hlt, hop⟩ := h
  have := closeAll_ok s.outputChannels world.chans hnd
    (fun ch hch => ⟨hlt ch hch, hop hopen ch hch⟩)
  unfold Subscriber.Close
  simp only [hopen, Bool.false_eq_true, if_false]
  exact this

theorem Close_inv (s : Subscriber) (world : World) (h : s.Inv world) :
    (s.Close world).s.Inv (s.Close world).world ∧ (s.Close world).panicked = false := by
  by_cases hc : s.closed = true
  · have e : s.Close world = { s := s, world := world, panicked := false, err := none } := by
      unfold Subscriber.Close
      simp [hc]
    rw [e]
    exact ⟨h, rfl⟩
  · have hopen : s.closed = false := by simpa using hc
    obtain ⟨hf1, hf2, hf3, hf4, _⟩ := Close_facts s world
    refine ⟨⟨?_, ?_, ?_⟩, (Close_of_open s world h hopen).1⟩
    · rw [hf3]; exact h.1
    · intro ch hch
      rw [hf3] at hch
      rw [hf4]
      exact h.2.1 ch hch
    · intro hcl
      rw [hf2] at hcl
      exact absurd hcl (by decide)

theorem Close_of_closed (s : Subscriber) (world : World) (h : s.closed = true) :
    s.Close world = { s := s, world := world, panicked := false, err := none } := by
  unfold Subscriber.Close
  simp [h]

theorem Close_err (s : Subscriber) (world : World) : (s.Close world).err = none := by
  unfold Subscriber.Close
  split <;> rfl

theorem NewSubscriber_some (jsonDecode : String → Except GoError pushRequest)
    (config : SubscriberConfig) (logger : Option LoggerAdapter) (s : Subscriber)
    (h : NewSubscriber jsonDecode config logger = (some s, none)) :
    s.outputChannels = [] ∧ s.closed = false ∧ s.config.RegisterHttpHandler ≠ none := by
  obtain ⟨reg, um⟩ := config
  cases reg with
  | none => cases um <;> simp [NewSubscriber, SubscriberConfig.setDefaults] at h
  | some register =>
    cases um <;>
    · simp only [NewSubscriber, SubscriberConfig.setDefaults, Prod.mk.injEq,
        Option.some.injEq, and_true] at h
      subst h
      simp

theorem NewSubscriber_inv (jsonDecode : String → Except GoError pushRequest)
    (config : SubscriberConfig) (logger : Option LoggerAdapter) (s : Subscriber)
    (world : World) (h : NewSubscriber jsonDecode config logger = (some s, none)) :
    s.Inv world := by
  obtain ⟨h1, _, _⟩ := NewSubscriber_some jsonDecode config logger s h
  simp [Subscriber.Inv, h1]

/-- A sequence of calls from a state that satisfies the invariant does not panic and ends in
a state that satisfies it. -/
theorem run_ok (calls : List Call) :
    ∀ st : Subscriber × World, st.1.Inv st.2 → st.1.config.RegisterHttpHandler ≠ none →
      ∃ st2, run calls st = some st2 ∧ st2.1.Inv st2.2 ∧ st2.1.config = st.1.config := by
  induction calls with
  | nil => intro st hinv _; exact ⟨st, rfl, hinv, rfl⟩
  | cons c rest ih =>
    intro st hinv hreg
    cases c with
    | Subscribe ctx url =>
      obtain ⟨hf1, _, _, _, hf5⟩ := Subscribe_facts st.1 ctx url st.2
      have hp : (st.1.Subscribe ctx url st.2).panicked = false := by
        cases hq : (st.1.Subscribe ctx url st.2).panicked
        · rfl
        · exact absurd (hf5.mp hq) hreg
      obtain ⟨st2, h1, h2, h3⟩ := ih ((st.1.Subscribe ctx url st.2).s,
        (st.1.Subscribe ctx url st.2).world) (Subscribe_inv st.1 ctx url st.2 hinv)
        (by simpa [hf1] using hreg)
      refine ⟨st2, ?_, h2, ?_⟩
      · simp only [run, hp, Bool.false_eq_true, if_false]
        exact h1
      · rw [h3]
        exact hf1
    | Close =>
      obtain ⟨hf1, _⟩ := Close_facts st.1 st.2
      obtain ⟨hi, hp⟩ := Close_inv st.1 st.2 hinv
      obtain ⟨st2, h1, h2, h3⟩ := ih ((st.1.Close st.2).s, (st.1.Close st.2).world) hi
        (by simpa [hf1] using hreg)
      refine ⟨st2, ?_, h2, ?_⟩
      · simp only [run, hp, Bool.false_eq_true, if_false]
        exact h1
      · rw [h3]
        exact hf1

/-- A sequence of calls removes no channel from the heap, reopens none, and keeps the
configuration. -/
theorem run_mono (calls : List Call) :
    ∀ st st2 : Subscriber × World, run calls st = some st2 →
      st.2.chans.length ≤ st2.2.chans.length ∧
      (∀ i, chanClosed st.2.chans i = true → chanClosed st2.2.chans i = true) ∧
      st2.1.config = st.1.config := by
  induction calls with
  | nil =>
    intro st st2 h
    simp only [run, Option.some.injEq] at h
    subst h
    exact ⟨le_refl _, fun _ hi => hi, rfl⟩
  | cons c rest ih =>
    intro st st2 h
    cases c with
    | Subscribe ctx url =>
      obtain ⟨hf1, _, _, hf4, _⟩ := Subscribe_facts st.1 ctx url st.2
      simp only [run] at h
      split at h
      · simp at h
      · obtain ⟨h1, h2, h3⟩ := ih _ _ h
        simp only [hf4, List.length_append, List.length_singleton] at h1 h2
        refine ⟨by omega, ?_, by rw [h3]; exact hf1⟩
        intro i hi
        exact h2 i (chanClosed_append_mono _ _ i hi)
    | Close =>
      obtain ⟨hf1, _, _, hf4, hf5⟩ := Close_facts st.1 st.2
      simp only [run] at h
      split at h
      · simp at h
      · obtain ⟨h1, h2, h3⟩ := ih _ _ h
        simp only [hf4] at h1
        exact ⟨h1, fun i hi => h2 i (hf5 i hi), by rw [h3]; exact hf1⟩

/-- After `Close`, further calls append one open channel to the registry for each
`Subscribe` and change no channel that was in the heap. -/
theorem run_after_close (calls : List Call) :
    ∀ (st : Subscriber × World) (s : Subscriber) (w : World), st.1.closed = true →
      run calls st = some (s, w) →
      ∃ later : List Nat, s.outputChannels = st.1.outputChannels ++ later ∧
        later.length = calls.countP Call.isSubscribe ∧ s.closed = true ∧
        (∀ ch ∈ later, chanClosed w.chans ch = false) ∧
        (∀ i, i < st.2.chans.length → w.chans.get? i = st.2.chans.get? i) := by
  induction calls with
  | nil =>
    intro st s w hcl h
    simp only [run, Option.some.injEq] at h
    subst h
    exact ⟨[], by simp, rfl, hcl, by simp, fun _ _ => rfl⟩
  | cons c rest ih =>
    intro st s w hcl h
    cases c with
    | Subscribe ctx url =>
      obtain ⟨_, hf2, hf3, hf4, _⟩ := Subscribe_facts st.1 ctx url st.2
      simp only [run] at h
      split at h
      · simp at h
      · obtain ⟨later, h1, h2, h3, h4, h5⟩ := ih _ s w (by rw [hf2]; exact hcl) h
        simp only [hf3, hf4, List.length_append, List.length_singleton] at h1 h5
        have hnew : w.chans.get? st.2.chans.length =
            some { closed := false, delivered := [] } := by
          rw [h5 st.2.chans.length (by omega)]
          simp [List.get?_eq_getElem?]
        refine ⟨st.2.chans.length :: later, by simp [h1], ?_, h3, ?_, ?_⟩
        · simp [List.countP_cons, Call.isSubscribe, h2]
        · intro ch hch
          rcases List.mem_cons.mp hch with rfl | hch
          · unfold chanClosed
            rw [hnew]
          · exact h4 ch hch
        · intro i hi
          rw [h5 i (by omega)]
          simp [List.get?_eq_getElem?, List.getElem?_append_left hi]
    | Close =>
      simp only [run, Close_of_closed _ _ hcl, Bool.false_eq_true, if_false] at h
      obtain ⟨later, h1, h2, h3, h4, h5⟩ := ih st s w hcl h
      exact ⟨later, h1, by simp [List.countP_cons, Call.isSubscribe, h2], h3, h4, h5⟩

/-- In a state reached with the closed flag set, a `Close` was called; the registry is the
registry at the first `Close` followed by one channel for each later `Subscribe`; the
channels of the first part are closed, those of the second part are open. -/
theorem run_closed (calls : List Call) :
    ∀ (st : Subscriber × World) (s : Subscriber) (w : World), st.1.Inv st.2 →
      st.1.closed = false → run calls st = some (s, w) → s.closed = true →
      ∃ (calls1 calls2 : List Call) (s1 : Subscriber) (w1 : World) (later : List Nat),
        calls = calls1 ++ Call.Close :: calls2 ∧ Call.Close ∉ calls1 ∧
        run calls1 st = some (s1, w1) ∧
        s.outputChannels = s1.outputChannels ++ later ∧
        later.length = calls2.countP Call.isSubscribe ∧
        (∀ ch ∈ s1.outputChannels, chanClosed w.chans ch = true) ∧
        (∀ ch ∈ later, chanClosed w.chans ch = false) := by
  induction calls with
  | nil =>
    intro st s w _ hopen h hcl
    simp only [run, Option.some.injEq] at h
    rw [h] at hopen
    simp only at hopen
    rw [hopen] at hcl
    exact absurd hcl (by decide)
  | cons c rest ih =>
    intro st s w hinv hopen h hcl
    cases c with
    | Subscribe ctx url =>
      obtain ⟨_, hf2, _, _, _⟩ := Subscribe_facts st.1 ctx url st.2
      simp only [run] at h
      split at h
      · simp at h
      · rename_i hp
        obtain ⟨calls1, calls2, s1, w1, later, e, hno, hr, hreg, hlen, hall, hlater⟩ :=
          ih _ s w (Subscribe_inv st.1 ctx url st.2 hinv) (by rw [hf2]; exact hopen) h hcl
        refine ⟨Call.Subscribe ctx url :: calls1, calls2, s1, w1, later, by rw [e]; rfl,
          ?_, ?_, hreg, hlen, hall, hlater⟩
        · simp only [List.mem_cons, not_or]
          exact ⟨by simp, hno⟩
        · simp only [run, hp, if_false]
          exact hr
    | Close =>
      simp only [run] at h
      split at h
      · simp at h
      · obtain ⟨_, hall⟩ := Close_of_open st.1 st.2 hinv hopen
        obtain ⟨_, hf2, hf3, _, _⟩ := Close_facts st.1 st.2
        obtain ⟨_, hm, _⟩ := run_mono rest _ _ h
        obtain ⟨later, h1, h2, _, h4, _⟩ := run_after_close rest _ s w hf2 h
        rw [hf3] at h1
        refine ⟨[], rest, st.1, st.2, later, rfl, by simp, rfl, h1, h2, ?_, h4⟩
        intro ch hch
        exact hm ch (hall ch hch)

theorem ServeHTTP_frame (h : PushHandler) (sched : Schedule) (w : ResponseWriter)
    (r : Request) (world : World) (i : Nat) (hi : h.messages ≠ i) :
    (h.ServeHTTP sched w r world).world.chans.get? i = world.chans.get? i := by
  unfold PushHandler.ServeHTTP
  split
  · rfl
  · split
    · rfl
    · rfl
    · simp only [World.logCall]
      split
      · rfl
      · split
        · rfl
        · split
          · rfl
          · split
            · simp [World.deliver, List.get?_eq_getElem?, List.getElem?_modify_ne _ _ hi]
            · simp [World.deliver, World.cancel, List.get?_eq_getElem?,
                List.getElem?_modify_ne _ _ hi]

/-! ## Lemmas on the default decode function over the JSON decoder -/

theorem StepOK_error (c : Char) (s : scanner) (ctx : String) (h : s.endTop = false) :
    StepOK c (s.error ctx) := by
  left
  exact ⟨rfl, h⟩

theorem StepOK_continue (c : Char) (s : scanner) (code : ScanCode) (he : s.err = none)
    (ht : s.endTop = false) (h1 : code ≠ ScanCode.scanEndObject)
    (h2 : code ≠ ScanCode.scanEndArray) (h3 : code ≠ ScanCode.scanEnd)
    (h4 : code ≠ ScanCode.scanError) : StepOK c (s, code) := by
  right; right; right
  exact ⟨h1, h2, h3, h4, he, ht⟩

theorem StepOK_stateEndTop (c : Char) (s : scanner) : StepOK c (stateEndTop s c) := by
  right; left
  unfold stateEndTop
  split <;> rfl

theorem StepOK_pop (c : Char) (s : scanner) (code : ScanCode) (he : s.err = none)
    (ht : s.endTop = false) (hc : c = '}' ∨ c = ']')
    (hcode : code = ScanCode.scanEndObject ∨ code = ScanCode.scanEndArray) :
    StepOK c (s.popParseState, code) := by
  right; right; left
  refine ⟨hcode, hc, ?_, ?_⟩
  · unfold scanner.popParseState
    simp only
    split <;> exact he
  · unfold scanner.popParseState
    simp only
    split
    · left
      rename_i h0
      exact List.eq_nil_of_length_eq_zero h0
    · right
      rename_i h0
      refine ⟨?_, rfl, ht⟩
      intro e
      apply h0
      show s.parseState.tail.length = 0
      have e2 : s.parseState.tail = [] := e
      rw [e2]
      rfl

theorem StepOK_stateEndValue (c : Char) (s : scanner) (he : s.err = none)
    (ht : s.endTop = false) : StepOK c (stateEndValue s c) := by
  unfold stateEndValue
  split
  · exact StepOK_stateEndTop c _
  · split
    · exact StepOK_continue c _ _ he ht (by decide) (by decide) (by decide) (by decide)
    · rename_i ps rest hps hsp
      cases ps with
      | parseObjectKey =>
        simp only
        split
        · exact StepOK_continue c _ _ he ht (by decide) (by decide) (by decide) (by decide)
        · exact StepOK_error c s _ ht
      | parseObjectValue =>
        simp only
        split
        · exact StepOK_continue c _ _ he ht (by decide) (by decide) (by decide) (by decide)
        · split
          · rename_i hc
            exact StepOK_pop c s _ he ht (Or.inl hc) (Or.inl rfl)
          · exact StepOK_error c s _ ht
      | parseArrayValue =>
        simp only
        split
        · exact StepOK_continue c _ _ he ht (by decide) (by decide) (by decide) (by decide)
        · split
          · rename_i hc
            exact StepOK_pop c s _ he ht (Or.inr hc) (Or.inr rfl)
          · exact StepOK_error c s _ ht

theorem StepOK_stateBeginValue (c : Char) (s : scanner) (he : s.err = none)
    (ht : s.endTop = false) : StepOK c (stateBeginValue s c) := by
  unfold stateBeginValue scanner.pushParseState
  simp only
  repeat' split
  all_goals first
    | exact StepOK_continue c _ _ he ht (by decide) (by decide) (by decide) (by decide)
    | exact StepOK_error c _ _ ht

theorem StepOK_stepOn (c : Char) (s : scanner) (he : s.err = none) (ht : s.endTop = false) :
    StepOK c (s.stepOn c) := by
  have hev := StepOK_stateEndValue c s he ht
  have hbv := StepOK_stateBeginValue c s he ht
  unfold scanner.stepOn
  cases hs : s.step <;> simp only
  case stateBeginValueOrEmpty =>
    unfold stateBeginValueOrEmpty
    repeat' split
    all_goals first
      | exact StepOK_continue c _ _ he ht (by decide) (by decide) (by decide) (by decide)
      | exact hev
      | exact hbv
  case stateBeginValue => exact hbv
  case stateBeginStringOrEmpty =>
    unfold stateBeginStringOrEmpty stateBeginString
    repeat' split
    all_goals first
      | exact StepOK_continue c _ _ he ht (by decide) (by decide) (by decide) (by decide)
      | exact StepOK_error c _ _ ht
      | exact StepOK_stateEndValue c _ he ht
  case stateBeginString =>
    unfold stateBeginString
    repeat' split
    all_goals first
      | exact StepOK_continue c _ _ he ht (by decide) (by decide) (by decide) (by decide)
      | exact StepOK_error c _ _ ht
  case stateEndValue => exact hev
  case stateEndTop => exact StepOK_stateEndTop c s
  case stateError =>
    left
    exact ⟨rfl, ht⟩
  all_goals
    simp only [stateInString, stateInStringEsc, stateInStringEscHex, stateNeg, state1, state0,
      stateDot, stateDot0, stateE, stateESign, stateE0, stateLiteral]
    repeat' split
    all_goals first
      | exact StepOK_continue c _ _ he ht (by decide) (by decide) (by decide) (by decide)
      | exact StepOK_error c _ _ ht
      | exact hev

/-- A body on which `readValue` fails is not valid JSON. -/
theorem readValueFrom_error (buf : List Char) (l : List Char) :
    ∀ (s : scanner) (scanp : Nat) (e : GoError), s.err = none → s.endTop = false →
      readValueFrom buf l s scanp = Except.error e → checkValidFrom l s = false := by
  induction l with
  | nil =>
    intro s scanp e he ht h
    have hok := StepOK_stepOn ' ' s he ht
    rw [readValueFrom] at h
    have hne : (s.stepOn ' ').2 ≠ ScanCode.scanEnd := by
      intro h1
      simp [h1] at h
    have htop : (s.stepOn ' ').1.endTop = false := by
      rcases hok with ⟨_, h2⟩ | h1 | ⟨_, hc, _⟩ | ⟨_, _, _, _, _, h2⟩
      · exact h2
      · exact absurd h1 hne
      · rcases hc with hc | hc <;> exact absurd hc (by decide)
      · exact h2
    simp [checkValidFrom, scanner.eof, he, ht, htop]
  | cons c rest ih =>
    intro s scanp e he ht h
    have hok := StepOK_stepOn c s he ht
    rw [readValueFrom] at h
    rw [checkValidFrom]
    rcases hok with ⟨h1, _⟩ | h1 | ⟨h1, _, he2, h2⟩ | ⟨n1, n2, n3, n4, he2, ht2⟩
    · simp [h1]
    · simp [h1] at h
    · have hne : (s.stepOn c).2 ≠ ScanCode.scanError := by
        rcases h1 with h1 | h1 <;> rw [h1] <;> decide
      rw [if_neg hne]
      have key : (stateEndValue (s.stepOn c).1 ' ').2 ≠ ScanCode.scanEnd →
          readValueFrom buf rest (stateEndValue (s.stepOn c).1 ' ').1 (scanp + 1) =
            Except.error e := by
        intro hn
        rcases h1 with h1 | h1 <;> simpa [h1, hn] using h
      have hnend : (stateEndValue (s.stepOn c).1 ' ').2 ≠ ScanCode.scanEnd := by
        intro hend
        rcases h1 with h1 | h1 <;> simp [h1, hend] at h
      rcases h2 with h2 | ⟨h2, h3, h4⟩
      · exfalso
        apply hnend
        simp [stateEndValue, h2, stateEndTop]
        split <;> rfl
      · have hsame : (stateEndValue (s.stepOn c).1 ' ').1 = (s.stepOn c).1 := by
          unfold stateEndValue
          cases hps : (s.stepOn c).1.parseState with
          | nil => exact absurd hps h2
          | cons ps more =>
            have hsp : isSpace ' ' = true := by decide
            simp only [hsp, if_true]
            rw [← h3, ← hps]
        rw [hsame] at key
        exact ih _ _ _ he2 h4 (key hnend)
    · have hne : (s.stepOn c).2 ≠ ScanCode.scanError := n4
      rw [if_neg hne]
      apply ih _ (scanp + 1) e he2 ht2
      cases hcode : (s.stepOn c).2 <;> simp [hcode] at h n1 n2 n3 n4 ⊢ <;> exact h

theorem readValue_error_not_Valid (body : String) (e : GoError)
    (h : readValue body.toList = Except.error e) : Valid body = false :=
  readValueFrom_error body.toList body.toList scanner.reset 0 e rfl rfl h

/-- The default decode function over `Decoder.Decode` returns an error exactly when the
body does not begin with a complete JSON value, or that value does not unmarshal, or the
data is not valid base64; it never returns neither message nor error. -/
theorem DefaultUnmarshalMessageFunc_Decode_fails
    (unmarshal : String → Except GoError pushRequest) (r : Request) :
    ((DefaultUnmarshalMessageFunc (Decoder.Decode unmarshal) r).2 ≠ none ↔
      ((∃ e, readValue r.Body.toList = Except.error e) ∨
        (∃ n e, readValue r.Body.toList = Except.ok n ∧
          unmarshal (String.mk (r.Body.toList.take n)) = Except.error e) ∨
        (∃ n p, readValue r.Body.toList = Except.ok n ∧
          unmarshal (String.mk (r.Body.toList.take n)) = Except.ok p ∧
          (StdEncoding.DecodeString p.PubsubMessage.Data).2 = true))) ∧
    ((DefaultUnmarshalMessageFunc (Decoder.Decode unmarshal) r).1 = none ↔
      (DefaultUnmarshalMessageFunc (Decoder.Decode unmarshal) r).2 ≠ none) := by
  unfold DefaultUnmarshalMessageFunc Decoder.Decode
  simp only [String.toList]
  cases h1 : readValue r.Body.data with
  | error e => simp
  | ok n =>
    cases h2 : unmarshal (String.mk (r.Body.data.take n)) with
    | error e => simp [h2]
    | ok p =>
      cases h3 : StdEncoding.DecodeString p.PubsubMessage.Data with
      | mk payload err =>
        cases err <;> simp [h2, h3]

/-- The handler on a request whose decoding gives an error or no message: status 400, one
log call, nothing else, whatever the scheduler does. -/
theorem ServeHTTP_of_failure (h : PushHandler) (unmarshal : UnmarshalMessageFunc)
    (w : ResponseWriter) (r : Request) (world : World)
    (hf : h.config.UnmarshalMessageFunc = some unmarshal)
    (hfail : (unmarshal r).2 ≠ none ∨ unmarshal r = (none, none)) :
    ∃ text : String, ∀ sched : Schedule,
      h.ServeHTTP sched w r world =
        { exit := Exit.returned, w := { headers := w.headers ++ [400] },
          world := { world with log := world.log ++ [(LogLevel.Info, text)] } } := by
  rcases hfail with h1 | h2
  · cases hu : unmarshal r with
    | mk m e =>
      rw [hu] at h1
      cases e with
      | none => exact absurd rfl h1
      | some e =>
        refine ⟨"Cannot unmarshal message", fun sched => ?_⟩
        simp [PushHandler.ServeHTTP, hf, hu, World.logCall, ResponseWriter.WriteHeader,
          StatusBadRequest]
  · refine ⟨"No message returned by UnmarshalMessageFunc", fun sched => ?_⟩
    simp [PushHandler.ServeHTTP, hf, h2, World.logCall, ResponseWriter.WriteHeader,
      StatusBadRequest]

/-! ## The claims -/

/-- C1: for a parsed push envelope whose data is valid base64 and whose attribute keys are
unique, `DefaultUnmarshalMessageFunc` returns a message whose identifier is the value of the
attribute `_watermill_message_uuid` when that key is present and the empty string when it
is absent, and the key `_watermill_message_uuid` is not a key of the metadata. On the
envelope of the body with data `aGVsbG8=` and attributes `_watermill_message_uuid: 42`,
`foo: bar` the message has identifier `42`, payload `hello` and metadata
`foo: bar, publishTime: ""`. -/
theorem DefaultUnmarshalMessageFunc_uuid (jsonDecode : String → Except GoError pushRequest)
    (r : Request) (p : pushRequest) (hjson : jsonDecode r.Body = Except.ok p)
    (hdata : (StdEncoding.DecodeString p.PubsubMessage.Data).2 = false)
    (huniq : (p.PubsubMessage.Attributes.map Prod.fst).Nodup) :
    ∃ msg : Message, DefaultUnmarshalMessageFunc jsonDecode r = (some msg, none) ∧
      (∀ v, (UUIDHeaderKey, v) ∈ p.PubsubMessage.Attributes → msg.UUID = v) ∧
      (UUIDHeaderKey ∉ p.PubsubMessage.Attributes.map Prod.fst → msg.UUID = "") ∧
      Metadata.lookup msg.Metadata UUIDHeaderKey = none ∧
      (p.PubsubMessage.Data = "aGVsbG8=" →
        p.PubsubMessage.Attributes = [(UUIDHeaderKey, "42"), ("foo", "bar")] →
        p.PubsubMessage.PublishTime = "" →
        msg = { UUID := "42", Metadata := [("foo", "bar"), ("publishTime", "")],
                Payload := [104, 101, 108, 108, 111], ctx := none }) := by
  refine ⟨_, DefaultUnmarshalMessageFunc_ok jsonDecode r p hjson hdata, ?_, ?_, ?_, ?_⟩
  · intro v hv
    simp only [foldl_attributeStep_id _ "" [] huniq,
      Metadata.lookup_of_mem _ _ _ huniq hv, Option.getD_some]
  · intro habs
    simp only [foldl_attributeStep_id _ "" [] huniq,
      Metadata.lookup_eq_none _ _ habs, Option.getD_none]
  · have hne : ¬ "publishTime" = UUIDHeaderKey := by decide
    simp only [Metadata.lookup_Set, hne, if_false, foldl_attributeStep_uuid]
    rfl
  · intro h1 h2 h3
    rw [h1, h2, h3]
    decide

/-- C1, at the envelope of the spec's example body. -/
theorem DefaultUnmarshalMessageFunc_uuid_witness :
    ∃ msg : Message,
      DefaultUnmarshalMessageFunc exampleJsonDecode { Body := exampleBody } = (some msg, none) ∧
      msg.UUID = "42" ∧ Metadata.lookup msg.Metadata UUIDHeaderKey = none ∧
      msg = { UUID := "42", Metadata := [("foo", "bar"), ("publishTime", "")],
              Payload := [104, 101, 108, 108, 111], ctx := none } := by
  obtain ⟨msg, h, hv, _, hmd, hex⟩ :=
    DefaultUnmarshalMessageFunc_uuid exampleJsonDecode { Body := exampleBody } exampleEnvelope
      (by simp [exampleJsonDecode]) (by decide) (by decide)
  exact ⟨msg, h, hv "42" (by simp [exampleEnvelope]), hmd, hex rfl rfl rfl⟩

/-- C2, as stated, fails: with an attribute `publishTime: yesterday` and the envelope's
publish time `2021-02-26T19:13:55.749Z` the reserved key is absent and the data decodes,
but the metadata entry `publishTime` is the envelope's publish time, not the attribute. -/
theorem DefaultUnmarshalMessageFunc_publishTime_overwrites :
    DefaultUnmarshalMessageFunc (fun _ => Except.ok publishTimeEnvelope) { Body := "" } =
      (some { UUID := "", Metadata := [("publishTime", "2021-02-26T19:13:55.749Z")],
              Payload := [104, 101, 108, 108, 111], ctx := none }, none) ∧
    UUIDHeaderKey ∉ publishTimeEnvelope.PubsubMessage.Attributes.map Prod.fst ∧
    ("publishTime", "yesterday") ∈ publishTimeEnvelope.PubsubMessage.Attributes ∧
    ¬ (∀ k v, (k, v) ∈ publishTimeEnvelope.PubsubMessage.Attributes →
        Metadata.lookup [("publishTime", "2021-02-26T19:13:55.749Z")] k = some v) := by
  refine ⟨by decide, by decide, by decide, ?_⟩
  intro h
  have h2 := h "publishTime" "yesterday" (by decide)
  revert h2
  decide

/-- C2, amended: for a parsed push envelope whose data is valid base64 and whose attributes
(a map: keys pairwise different) do not contain the key `_watermill_message_uuid`, the
metadata of the message returned holds every attribute whose key is not `publishTime` with
its value unchanged, the entry `publishTime` equal to the envelope's publish time, and
nothing else. -/
theorem DefaultUnmarshalMessageFunc_metadata
    (jsonDecode : String → Except GoError pushRequest)
    (r : Request) (p : pushRequest) (hjson : jsonDecode r.Body = Except.ok p)
    (hdata : (StdEncoding.DecodeString p.PubsubMessage.Data).2 = false)
    (huniq : (p.PubsubMessage.Attributes.map Prod.fst).Nodup)
    (hno : UUIDHeaderKey ∉ p.PubsubMessage.Attributes.map Prod.fst) :
    ∃ msg : Message, DefaultUnmarshalMessageFunc jsonDecode r = (some msg, none) ∧
      (∀ k v, (k, v) ∈ p.PubsubMessage.Attributes → k ≠ "publishTime" →
        Metadata.lookup msg.Metadata k = some v) ∧
      Metadata.lookup msg.Metadata "publishTime" = some p.PubsubMessage.PublishTime ∧
      (∀ k, k ≠ "publishTime" → k ∉ p.PubsubMessage.Attributes.map Prod.fst →
        Metadata.lookup msg.Metadata k = none) := by
  refine ⟨_, DefaultUnmarshalMessageFunc_ok jsonDecode r p hjson hdata, ?_, ?_, ?_⟩
  · intro k v hkv hk
    have hku : k ≠ UUIDHeaderKey := by
      intro e
      subst e
      exact hno (List.mem_map.mpr ⟨(UUIDHeaderKey, v), hkv, rfl⟩)
    have hne : ¬ "publishTime" = k := fun e => hk e.symm
    simp only [Metadata.lookup_Set, hne, if_false,
      foldl_attributeStep_lookup _ "" [] k huniq hku,
      Metadata.lookup_of_mem _ _ _ huniq hkv]
  · simp only [Metadata.lookup_Set, if_true]
  · intro k hk habs
    have hne : ¬ "publishTime" = k := fun e => hk e.symm
    by_cases hku : k = UUIDHeaderKey
    · subst hku
      simp only [Metadata.lookup_Set, hne, if_false, foldl_attributeStep_uuid]
      rfl
    · simp only [Metadata.lookup_Set, hne, if_false,
        foldl_attributeStep_lookup _ "" [] k huniq hku,
        Metadata.lookup_eq_none _ _ habs]
      rfl

/-- C2, amended, at an envelope with the attributes `foo: bar` and `publishTime: yesterday`. -/
theorem DefaultUnmarshalMessageFunc_metadata_witness :
    ∃ msg : Message,
      DefaultUnmarshalMessageFunc
        (fun _ => Except.ok
          { PubsubMessage :=
              { Attributes := [("foo", "bar"), ("publishTime", "yesterday")],
                Data := "aGVsbG8=", MessageId := "1", OrderingKey := "",
                PublishTime := "today" },
            Subscription := "s" })
        { Body := "" } = (some msg, none) ∧
      Metadata.lookup msg.Metadata "foo" = some "bar" ∧
      Metadata.lookup msg.Metadata "publishTime" = some "today" ∧
      Metadata.lookup msg.Metadata "baz" = none := by
  obtain ⟨msg, h, h1, h2, h3⟩ :=
    DefaultUnmarshalMessageFunc_metadata
      (fun _ => Except.ok
        { PubsubMessage :=
            { Attributes := [("foo", "bar"), ("publishTime", "yesterday")],
              Data := "aGVsbG8=", MessageId := "1", OrderingKey := "",
              PublishTime := "today" },
          Subscription := "s" })
      { Body := "" }
      { PubsubMessage :=
          { Attributes := [("foo", "bar"), ("publishTime", "yesterday")],
            Data := "aGVsbG8=", MessageId := "1", OrderingKey := "",
            PublishTime := "today" },
        Subscription := "s" }
      rfl (by decide) (by decide) (by decide)
  exact ⟨msg, h, h1 "foo" "bar" (by simp) (by decide), h2, h3 "baz" (by decide) (by decide)⟩

/-- C3, as stated, fails: the data `aGVsbG9=` decodes without error to `hello`, whose
standard encoding is `aGVsbG8=`; the decoder is not strict and ignores the two unused
trailing bits of the last quantum. The data `aGVs\nbG8=` decodes to `hello` as well: line
breaks are skipped. -/
theorem DefaultUnmarshalMessageFunc_roundtrip_fails :
    DefaultUnmarshalMessageFunc (fun _ => Except.ok trailingBitsEnvelope) { Body := "" } =
      (some { UUID := "", Metadata := [("publishTime", "")],
              Payload := [104, 101, 108, 108, 111], ctx := none }, none) ∧
    StdEncoding.EncodeToString [104, 101, 108, 108, 111] = "aGVsbG8=" ∧
    StdEncoding.EncodeToString [104, 101, 108, 108, 111] ≠
      trailingBitsEnvelope.PubsubMessage.Data ∧
    DefaultUnmarshalMessageFunc (fun _ => Except.ok lineBreakEnvelope) { Body := "" } =
      (some { UUID := "", Metadata := [("publishTime", "")],
              Payload := [104, 101, 108, 108, 111], ctx := none }, none) ∧
    StdEncoding.EncodeToString [104, 101, 108, 108, 111] ≠
      lineBreakEnvelope.PubsubMessage.Data := by
  refine ⟨by decide, by decide, by decide, by decide, by decide⟩

/-- C3, amended: a parsed push envelope whose data has no line break (CR, LF) and is
accepted by the strict decoder (the unused trailing bits of its last quantum are zero) is
decoded by `DefaultUnmarshalMessageFunc`, with `base64.StdEncoding.DecodeString`, and the
standard padded base64 encoding of the message's payload is exactly the envelope's data.
For every envelope that is decoded, the encoding of the payload is the data exactly when
the data is of that form. -/
theorem DefaultUnmarshalMessageFunc_roundtrip
    (jsonDecode : String → Except GoError pushRequest)
    (r : Request) (p : pushRequest) (hjson : jsonDecode r.Body = Except.ok p) :
    ((∀ c ∈ p.PubsubMessage.Data.toList, c ≠ '\n' ∧ c ≠ '\r') →
      ((StdEncoding.Strict).DecodeString p.PubsubMessage.Data).2 = false →
      ∃ msg : Message, DefaultUnmarshalMessageFunc jsonDecode r = (some msg, none) ∧
        msg.Payload = (StdEncoding.DecodeString p.PubsubMessage.Data).1 ∧
        StdEncoding.EncodeToString msg.Payload = p.PubsubMessage.Data) ∧
    (∀ msg : Message, DefaultUnmarshalMessageFunc jsonDecode r = (some msg, none) →
      msg.Payload = (StdEncoding.DecodeString p.PubsubMessage.Data).1 ∧
      (StdEncoding.EncodeToString msg.Payload = p.PubsubMessage.Data ↔
        (∀ c ∈ p.PubsubMessage.Data.toList, c ≠ '\n' ∧ c ≠ '\r') ∧
        ((StdEncoding.Strict).DecodeString p.PubsubMessage.Data).2 = false)) := by
  have key : (∀ c ∈ p.PubsubMessage.Data.toList, c ≠ '\n' ∧ c ≠ '\r') →
      ((StdEncoding.Strict).DecodeString p.PubsubMessage.Data).2 = false →
      (StdEncoding.DecodeString p.PubsubMessage.Data).2 = false ∧
      StdEncoding.EncodeToString (StdEncoding.DecodeString p.PubsubMessage.Data).1 =
        p.PubsubMessage.Data := by
    intro hnl hstrict
    have hs : (StdEncoding.Strict).decodeFrom p.PubsubMessage.Data.toList [] =
        (((StdEncoding.Strict).DecodeString p.PubsubMessage.Data).1, false) :=
      Prod.ext rfl hstrict
    have hstd := decodeFrom_of_strict _ _ _ hs
    have henc := strict_decodeFrom_canonical _ [] _ (by simp) (by simp) hnl hs
    unfold Encoding.DecodeString Encoding.EncodeToString
    rw [hstd]
    refine ⟨rfl, ?_⟩
    simp only
    rw [henc]
    rfl
  refine ⟨?_, ?_⟩
  · intro hnl hstrict
    obtain ⟨hdata, henc⟩ := key hnl hstrict
    exact ⟨_, DefaultUnmarshalMessageFunc_ok jsonDecode r p hjson hdata, rfl, henc⟩
  · intro msg hok
    obtain ⟨hdata, hpay⟩ := DefaultUnmarshalMessageFunc_some jsonDecode r p msg hjson hok
    refine ⟨hpay, ?_, ?_⟩
    · intro henc
      have hlist : p.PubsubMessage.Data.toList = StdEncoding.Encode msg.Payload := by
        rw [← henc]
        rfl
      have hlt : ∀ b ∈ msg.Payload, b < 256 := by
        rw [hpay]
        exact decodeFrom_bytes_lt StdEncoding _ []
      refine ⟨?_, ?_⟩
      · rw [hlist]
        exact Encode_no_newline _ msg.Payload (le_refl _)
      · unfold Encoding.DecodeString
        rw [hlist, strict_decode_encode _ msg.Payload (le_refl _) hlt]
    · intro h
      rw [hpay]
      exact (key h.1 h.2).2

/-- C3, amended, at the envelope of the spec's example body. -/
theorem DefaultUnmarshalMessageFunc_roundtrip_witness :
    ∃ msg : Message,
      DefaultUnmarshalMessageFunc exampleJsonDecode { Body := exampleBody } = (some msg, none) ∧
      msg.Payload = (StdEncoding.DecodeString "aGVsbG8=").1 ∧
      StdEncoding.EncodeToString msg.Payload = "aGVsbG8=" :=
  (DefaultUnmarshalMessageFunc_roundtrip exampleJsonDecode { Body := exampleBody }
    exampleEnvelope (by simp [exampleJsonDecode])).1 (by decide) (by decide)

/-- C4: when the decode function yields a message and a consumer receives it from the
(open) channel, the handler writes exactly one status, fixed by the event that ends its
wait: 200 for the ack signal, 500 for the nack signal, 500 for the request's context being
done; it then returns. While no event fires it stays blocked and has written no status.
No other status is written on this path. -/
theorem ServeHTTP_status (h : PushHandler) (unmarshal : UnmarshalMessageFunc)
    (sched : Schedule) (w : ResponseWriter) (r : Request) (world : World) (msg : Message)
    (ch : Chan)
    (hf : h.config.UnmarshalMessageFunc = some unmarshal)
    (hmsg : unmarshal r = (some msg, none))
    (hch : world.chans.get? h.messages = some ch) (hopen : ch.closed = false)
    (hrecv : sched.received = true) :
    (sched.event = some WaitEvent.Acked →
      (h.ServeHTTP sched w r world).exit = Exit.returned ∧
      (h.ServeHTTP sched w r world).w.headers = w.headers ++ [200]) ∧
    (sched.event = some WaitEvent.Nacked →
      (h.ServeHTTP sched w r world).exit = Exit.returned ∧
      (h.ServeHTTP sched w r world).w.headers = w.headers ++ [500]) ∧
    (sched.event = some WaitEvent.RequestDone →
      (h.ServeHTTP sched w r world).exit = Exit.returned ∧
      (h.ServeHTTP sched w r world).w.headers = w.headers ++ [500]) ∧
    (sched.event = none →
      (h.ServeHTTP sched w r world).exit = Exit.blockedOnSelect ∧
      (h.ServeHTTP sched w r world).w.headers = w.headers) ∧
    (h.ServeHTTP sched w r world).world.chans.get? h.messages =
      some { ch with delivered :=
        ch.delivered ++ [{ msg with ctx := some world.contexts.length }] } := by
  have hch2 : (world.chans)[h.messages]? = some ch := by
    simpa [List.get?_eq_getElem?] using hch
  refine ⟨?_, ?_, ?_, ?_, ?_⟩
  · intro hev
    simp [PushHandler.ServeHTTP, hf, hmsg, World.logCall, hch2, hopen, hrecv, hev,
      ResponseWriter.WriteHeader, statusOf, StatusOK]
  · intro hev
    simp [PushHandler.ServeHTTP, hf, hmsg, World.logCall, hch2, hopen, hrecv, hev,
      ResponseWriter.WriteHeader, statusOf, StatusInternalServerError]
  · intro hev
    simp [PushHandler.ServeHTTP, hf, hmsg, World.logCall, hch2, hopen, hrecv, hev,
      ResponseWriter.WriteHeader, statusOf, StatusInternalServerError]
  · intro hev
    simp [PushHandler.ServeHTTP, hf, hmsg, World.logCall, hch2, hopen, hrecv, hev]
  · cases hev : sched.event <;>
      simp [PushHandler.ServeHTTP, hf, hmsg, World.logCall, hch2, hopen, hrecv, hev,
        World.deliver, World.cancel]

/-- C4, on the example body with a consumer that receives and acknowledges. -/
theorem ServeHTTP_status_witness :
    (exampleHandler.ServeHTTP { received := true, event := some WaitEvent.Acked }
      { headers := [] } { Body := exampleBody } exampleWorld).exit = Exit.returned ∧
    (exampleHandler.ServeHTTP { received := true, event := some WaitEvent.Acked }
      { headers := [] } { Body := exampleBody } exampleWorld).w.headers = [] ++ [200] :=
  (ServeHTTP_status exampleHandler (DefaultUnmarshalMessageFunc exampleJsonDecode)
    { received := true, event := some WaitEvent.Acked } { headers := [] }
    { Body := exampleBody } exampleWorld exampleMessage { closed := false, delivered := [] }
    rfl (by decide) rfl rfl rfl).1 rfl

/-- C5, as stated, fails for the default decoder: the example body followed by the text
` trailing` is not valid JSON, but `json.NewDecoder(r.Body).Decode` reads the first value
only, the decode function returns the message, and with a consumer that receives and
acknowledges it the handler sends the message on the channel and writes status 200. -/
theorem ServeHTTP_trailing_text_accepted :
    Valid trailingBody = false ∧
    readValue trailingBody.toList = Except.ok exampleBody.length ∧
    DefaultUnmarshalMessageFunc (Decoder.Decode exampleUnmarshal) { Body := trailingBody } =
      (some exampleMessage, none) ∧
    (decoderHandler.ServeHTTP { received := true, event := some WaitEvent.Acked }
      { headers := [] } { Body := trailingBody } exampleWorld).w.headers = [200] ∧
    (decoderHandler.ServeHTTP { received := true, event := some WaitEvent.Acked }
      { headers := [] } { Body := trailingBody } exampleWorld).world.chans =
      [{ closed := false, delivered := [{ exampleMessage with ctx := some 0 }] }] := by
  refine ⟨by decide, by rfl, by decide, by decide, by decide⟩

/-- C5, amended: when the configured decode function returns an error or no message, the
handler writes status 400 and nothing else and returns, whatever the scheduler does: no
send, every channel, context and registration as it was, no ack or nack signal waited for,
one call of the logger. The default decode function returns an error exactly when the
body does not begin with a complete JSON value (what follows the first value is not
read), or that value does not unmarshal into the envelope, or the data is not valid
base64, and never returns neither message nor error. A body that does not begin with a
complete JSON value is not valid JSON. -/
theorem ServeHTTP_decode_failure (h : PushHandler) (unmarshal : UnmarshalMessageFunc)
    (w : ResponseWriter) (r : Request) (world : World)
    (hf : h.config.UnmarshalMessageFunc = some unmarshal)
    (hfail : (unmarshal r).2 ≠ none ∨ unmarshal r = (none, none) ∨
      ∃ jsonUnmarshal, unmarshal = DefaultUnmarshalMessageFunc (Decoder.Decode jsonUnmarshal) ∧
        ((∃ e, readValue r.Body.toList = Except.error e) ∨
          (∃ n e, readValue r.Body.toList = Except.ok n ∧
            jsonUnmarshal (String.mk (r.Body.toList.take n)) = Except.error e) ∨
          (∃ n p, readValue r.Body.toList = Except.ok n ∧
            jsonUnmarshal (String.mk (r.Body.toList.take n)) = Except.ok p ∧
            (StdEncoding.DecodeString p.PubsubMessage.Data).2 = true))) :
    (∃ text : String, ∀ sched : Schedule,
      h.ServeHTTP sched w r world =
        { exit := Exit.returned, w := { headers := w.headers ++ [400] },
          world := { world with log := world.log ++ [(LogLevel.Info, text)] } }) ∧
    (∀ (jsonUnmarshal : String → Except GoError pushRequest) (r2 : Request),
      ((DefaultUnmarshalMessageFunc (Decoder.Decode jsonUnmarshal) r2).2 ≠ none ↔
        ((∃ e, readValue r2.Body.toList = Except.error e) ∨
          (∃ n e, readValue r2.Body.toList = Except.ok n ∧
            jsonUnmarshal (String.mk (r2.Body.toList.take n)) = Except.error e) ∨
          (∃ n p, readValue r2.Body.toList = Except.ok n ∧
            jsonUnmarshal (String.mk (r2.Body.toList.take n)) = Except.ok p ∧
            (StdEncoding.DecodeString p.PubsubMessage.Data).2 = true))) ∧
      ((DefaultUnmarshalMessageFunc (Decoder.Decode jsonUnmarshal) r2).1 = none ↔
        (DefaultUnmarshalMessageFunc (Decoder.Decode jsonUnmarshal) r2).2 ≠ none)) ∧
    (∀ (body : String) (e : GoError), readValue body.toList = Except.error e →
      Valid body = false) := by
  refine ⟨?_, fun ju r2 => DefaultUnmarshalMessageFunc_Decode_fails ju r2,
    readValue_error_not_Valid⟩
  apply ServeHTTP_of_failure h unmarshal w r world hf
  rcases hfail with h1 | h2 | ⟨ju, rfl, h3⟩
  · exact Or.inl h1
  · exact Or.inr h2
  · exact Or.inl ((DefaultUnmarshalMessageFunc_Decode_fails ju r).1.mpr h3)

/-- C5, amended, on a body that does not begin with a JSON value. -/
theorem ServeHTTP_decode_failure_witness :
    ∃ text : String, ∀ sched : Schedule,
      decoderHandler.ServeHTTP sched { headers := [] } { Body := "not json" } exampleWorld =
        { exit := Exit.returned, w := { headers := [] ++ [400] },
          world := { exampleWorld with log := exampleWorld.log ++ [(LogLevel.Info, text)] } } :=
  (ServeHTTP_decode_failure decoderHandler
    (DefaultUnmarshalMessageFunc (Decoder.Decode exampleUnmarshal)) { headers := [] }
    { Body := "not json" } exampleWorld rfl
    (Or.inr (Or.inr ⟨exampleUnmarshal, rfl, Or.inl ⟨"invalid character", by rfl⟩⟩))).1

theorem HasPrefix_slash_append (url : String) : HasPrefix ("/" ++ url) "/" = true := by
  simp [HasPrefix, String.toList, String.data_append, List.isPrefixOf]

theorem routeOf_of_prefix (url : String) (h : HasPrefix url "/" = true) :
    routeOf url = url := by
  simp [routeOf, h]

/-- C7: `Subscribe` calls the registration callback exactly once, with the route `url`
itself when `url` begins with `/` and with `/` followed by `url` otherwise; the route
registered begins with `/` (the empty route is registered as `/`) and normalising it again
changes nothing. -/
theorem Subscribe_registers_route (s : Subscriber) (ctx : Nat) (url : String) (world : World)
    (register : RegisterHttpHandler)
    (hreg : s.config.RegisterHttpHandler = some register) :
    ∃ (route : String) (handler : PushHandler),
      (s.Subscribe ctx url world).world.registered =
        world.registered ++ [{ mux := register.mux, pattern := route, handler := handler }] ∧
      (HasPrefix url "/" = true → route = url) ∧
      (HasPrefix url "/" = false → route = "/" ++ url) ∧
      (url = "" → route = "/") ∧
      HasPrefix route "/" = true ∧
      routeOf route = route := by
  refine ⟨routeOf url, PushHandler.mk s.config s.logger world.chans.length ctx url,
    ?_, ?_, ?_, ?_, ?_, ?_⟩
  · simp only [Subscriber.Subscribe, hreg]
  · intro hp
    simp [routeOf, hp]
  · intro hp
    simp [routeOf, hp]
  · intro hu
    subst hu
    decide
  · unfold routeOf
    cases hp : HasPrefix url "/"
    · simpa using HasPrefix_slash_append url
    · simpa using hp
  · have hp : HasPrefix (routeOf url) "/" = true := by
      unfold routeOf
      cases hp : HasPrefix url "/"
      · simpa using HasPrefix_slash_append url
      · simpa using hp
    exact routeOf_of_prefix _ hp

/-- C7, on the route `push`. -/
theorem Subscribe_registers_route_witness :
    ∃ (route : String) (handler : PushHandler),
      (exampleSubscriber.Subscribe 0 "push" emptyWorld).world.registered =
        emptyWorld.registered ++ [{ mux := 0, pattern := route, handler := handler }] ∧
      route = "/" ++ "push" := by
  obtain ⟨route, handler, h1, _, h3, _⟩ :=
    Subscribe_registers_route exampleSubscriber 0 "push" emptyWorld { mux := 0 } rfl
  exact ⟨route, handler, h1, h3 (by decide)⟩

/-- C9: `NewSubscriber` returns an error, and no Subscriber, exactly when the
configuration's `RegisterHttpHandler` is nil; a nil decode function or a nil logger does
not make it fail: the decode function defaults to `DefaultUnmarshalMessageFunc` (one that is
given is kept), the logger to `NopLogger`; the Subscriber returned is open and its channel
registry is empty. -/
theorem NewSubscriber_spec (jsonDecode : String → Except GoError pushRequest)
    (config : SubscriberConfig) (logger : Option LoggerAdapter) :
    ((NewSubscriber jsonDecode config logger).2 ≠ none ↔ config.RegisterHttpHandler = none) ∧
    ((NewSubscriber jsonDecode config logger).1 = none ↔ config.RegisterHttpHandler = none) ∧
    (∀ register, config.RegisterHttpHandler = some register →
      ∃ s : Subscriber, NewSubscriber jsonDecode config logger = (some s, none) ∧
        s.closed = false ∧ s.outputChannels = [] ∧
        s.config.RegisterHttpHandler = some register ∧
        (config.UnmarshalMessageFunc = none →
          s.config.UnmarshalMessageFunc = some (DefaultUnmarshalMessageFunc jsonDecode)) ∧
        (∀ f, config.UnmarshalMessageFunc = some f → s.config.UnmarshalMessageFunc = some f) ∧
        (logger = none → s.logger = LoggerAdapter.NopLogger) ∧
        (∀ l, logger = some l → s.logger = l)) := by
  obtain ⟨reg, um⟩ := config
  cases reg with
  | none =>
    cases um <;> simp [NewSubscriber, SubscriberConfig.setDefaults]
  | some register =>
    cases um <;> cases logger <;> simp [NewSubscriber, SubscriberConfig.setDefaults]

/-- C9, on a configuration with a callback only. -/
theorem NewSubscriber_spec_witness :
    ∃ s : Subscriber,
      NewSubscriber exampleJsonDecode
        { RegisterHttpHandler := some { mux := 0 }, UnmarshalMessageFunc := none } none =
        (some s, none) ∧ s.closed = false ∧ s.outputChannels = [] := by
  obtain ⟨s, h, hc, ho, _⟩ :=
    (NewSubscriber_spec exampleJsonDecode
      { RegisterHttpHandler := some { mux := 0 }, UnmarshalMessageFunc := none } none).2.2
      { mux := 0 } rfl
  exact ⟨s, h, hc, ho⟩

/-- C6: `Close` is idempotent. On a Subscriber built by `NewSubscriber`, in a state reached
by calls of its methods and not closed yet, the first `Close` sets the closed flag, closes
every channel of the registry, does not panic and returns no error; a second `Close` right
after it returns no error and leaves the Subscriber and every channel as they are, so that
no channel is closed twice. -/
theorem Close_idempotent (jsonDecode : String → Except GoError pushRequest)
    (config : SubscriberConfig) (logger : Option LoggerAdapter) (s0 : Subscriber)
    (w0 : World) (calls : List Call) (s : Subscriber) (w : World)
    (hnew : NewSubscriber jsonDecode config logger = (some s0, none))
    (hrun : run calls (s0, w0) = some (s, w))
    (hopen : s.closed = false) :
    (s.Close w).panicked = false ∧ (s.Close w).err = none ∧
    (s.Close w).s.closed = true ∧
    (s.Close w).s.outputChannels = s.outputChannels ∧
    (∀ ch ∈ s.outputChannels, (s.Close w).world.isClosed ch = true) ∧
    ((s.Close w).s.Close (s.Close w).world).panicked = false ∧
    ((s.Close w).s.Close (s.Close w).world).err = none ∧
    ((s.Close w).s.Close (s.Close w).world).s = (s.Close w).s ∧
    ((s.Close w).s.Close (s.Close w).world).world = (s.Close w).world := by
  obtain ⟨_, _, hreg⟩ := NewSubscriber_some jsonDecode config logger s0 hnew
  obtain ⟨st2, h1, hinv, _⟩ := run_ok calls (s0, w0)
    (NewSubscriber_inv jsonDecode config logger s0 w0 hnew) hreg
  rw [hrun, Option.some.injEq] at h1
  subst h1
  obtain ⟨hp, hall⟩ := Close_of_open s w hinv hopen
  obtain ⟨_, hcl, hreg2, _, _⟩ := Close_facts s w
  refine ⟨hp, Close_err s w, hcl, hreg2, hall, ?_, ?_, ?_, ?_⟩ <;>
    rw [Close_of_closed _ _ hcl]

/-- C6, on a Subscriber with two subscriptions. -/
theorem Close_idempotent_witness :
    (((exampleSubscriber.Subscribe 0 "a" emptyWorld).s.Subscribe 1 "b"
        (exampleSubscriber.Subscribe 0 "a" emptyWorld).world).s.Close
      ((exampleSubscriber.Subscribe 0 "a" emptyWorld).s.Subscribe 1 "b"
        (exampleSubscriber.Subscribe 0 "a" emptyWorld).world).world).world.chans =
      [{ closed := true, delivered := [] }, { closed := true, delivered := [] }] ∧
    (((exampleSubscriber.Subscribe 0 "a" emptyWorld).s.Subscribe 1 "b"
        (exampleSubscriber.Subscribe 0 "a" emptyWorld).world).s.Close
      ((exampleSubscriber.Subscribe 0 "a" emptyWorld).s.Subscribe 1 "b"
        (exampleSubscriber.Subscribe 0 "a" emptyWorld).world).world).panicked = false :=
  ⟨by decide,
    (Close_idempotent exampleJsonDecode exampleConfig none exampleSubscriber emptyWorld
      [Call.Subscribe 0 "a", Call.Subscribe 1 "b"] _ _ rfl rfl rfl).1⟩

/-- C8: a call of `Subscribe` appends exactly one channel to the registry, a new channel of
the heap, leaves the earlier registry entries and the channels of the heap as they are, and
returns that channel; the handler it registers sends on that channel only. After any
calls in between, a second `Subscribe` (with whatever route) returns a different channel,
and running the handler of one of the two calls leaves the channel of the other as it is. -/
theorem Subscribe_channels_independent (s : Subscriber) (ctx1 ctx2 : Nat)
    (url1 url2 : String) (world : World) (calls : List Call) (st : Subscriber × World)
    (hreg : s.config.RegisterHttpHandler ≠ none)
    (hrun : run calls ((s.Subscribe ctx1 url1 world).s, (s.Subscribe ctx1 url1 world).world) =
      some st) :
    ∃ (c1 c2 : Nat) (reg1 reg2 : Registration),
      (s.Subscribe ctx1 url1 world).panicked = false ∧
      (s.Subscribe ctx1 url1 world).messages = some c1 ∧
      (s.Subscribe ctx1 url1 world).s.outputChannels = s.outputChannels ++ [c1] ∧
      world.chans.get? c1 = none ∧
      (s.Subscribe ctx1 url1 world).world.chans =
        world.chans ++ [{ closed := false, delivered := [] }] ∧
      (s.Subscribe ctx1 url1 world).world.registered = world.registered ++ [reg1] ∧
      reg1.handler.messages = c1 ∧
      (st.1.Subscribe ctx2 url2 st.2).panicked = false ∧
      (st.1.Subscribe ctx2 url2 st.2).messages = some c2 ∧
      (st.1.Subscribe ctx2 url2 st.2).s.outputChannels = st.1.outputChannels ++ [c2] ∧
      (st.1.Subscribe ctx2 url2 st.2).world.registered = st.2.registered ++ [reg2] ∧
      reg2.handler.messages = c2 ∧
      c1 ≠ c2 ∧
      (∀ (h : PushHandler) sched w r wd i, h.messages ≠ i →
        (h.ServeHTTP sched w r wd).world.chans.get? i = wd.chans.get? i) ∧
      (∀ sched w r wd,
        (reg1.handler.ServeHTTP sched w r wd).world.chans.get? c2 = wd.chans.get? c2) ∧
      (∀ sched w r wd,
        (reg2.handler.ServeHTTP sched w r wd).world.chans.get? c1 = wd.chans.get? c1) := by
  obtain ⟨register, hr⟩ := Option.ne_none_iff_exists'.mp hreg
  obtain ⟨hlen, _, hcfg⟩ := run_mono calls _ _ hrun
  obtain ⟨hf1, _, _, hf4, _⟩ := Subscribe_facts s ctx1 url1 world
  have hr2 : st.1.config.RegisterHttpHandler = some register := by
    rw [hcfg, hf1]
    exact hr
  simp only [hf4, List.length_append, List.length_singleton] at hlen
  have hne : world.chans.length ≠ st.2.chans.length := by omega
  refine ⟨world.chans.length, st.2.chans.length,
    Registration.mk register.mux (routeOf url1)
      (PushHandler.mk s.config s.logger world.chans.length ctx1 url1),
    Registration.mk register.mux (routeOf url2)
      (PushHandler.mk st.1.config st.1.logger st.2.chans.length ctx2 url2),
    ?_, ?_, ?_, ?_, ?_, ?_, rfl, ?_, ?_, ?_, ?_, rfl, hne, ?_, ?_, ?_⟩
  · simp [Subscriber.Subscribe, hr]
  · simp [Subscriber.Subscribe, hr]
  · simp [Subscriber.Subscribe, hr]
  · simp [List.get?_eq_getElem?]
  · exact hf4
  · simp [Subscriber.Subscribe, hr]
  · simp [Subscriber.Subscribe, hr2]
  · simp [Subscriber.Subscribe, hr2]
  · simp [Subscriber.Subscribe, hr2]
  · simp [Subscriber.Subscribe, hr2]
  · intro h sched w r wd i hi
    exact ServeHTTP_frame h sched w r wd i hi
  · intro sched w r wd
    exact ServeHTTP_frame _ sched w r wd _ hne
  · intro sched w r wd
    exact ServeHTTP_frame _ sched w r wd _ (Ne.symm hne)

/-- C8, on two subscriptions of the same route: the channels returned differ. -/
theorem Subscribe_channels_independent_witness :
    (exampleSubscriber.Subscribe 0 "push" emptyWorld).messages ≠
      ((exampleSubscriber.Subscribe 0 "push" emptyWorld).s.Subscribe 0 "push"
        (exampleSubscriber.Subscribe 0 "push" emptyWorld).world).messages := by
  obtain ⟨c1, c2, reg1, reg2, _, h2, _, _, _, _, _, _, h9, _, _, _, hne, _⟩ :=
    Subscribe_channels_independent exampleSubscriber 0 0 "push" "push" emptyWorld []
      ((exampleSubscriber.Subscribe 0 "push" emptyWorld).s,
        (exampleSubscriber.Subscribe 0 "push" emptyWorld).world)
      (by simp [exampleSubscriber, exampleConfig]) rfl
  rw [h2, h9]
  intro e
  exact hne (Option.some.inj e)

/-- C10, as stated, fails: `Subscribe` does not look at the closed flag. After `Close` and
then `Subscribe` on a new Subscriber the closed flag is set and the registry holds channel
0, which is open. -/
theorem closed_flag_with_open_channel :
    NewSubscriber exampleJsonDecode exampleConfig none = (some exampleSubscriber, none) ∧
    (run [Call.Close, Call.Subscribe 0 "push"] (exampleSubscriber, emptyWorld)).map
      (fun st => (st.1.closed, st.1.outputChannels, st.2.isClosed 0, st.2.chans)) =
      some (true, [0], false, [{ closed := false, delivered := [] }]) := by
  exact ⟨rfl, by decide⟩

/-- C10, amended: a sequence of `Subscribe` and `Close` calls on a Subscriber built by
`NewSubscriber` never panics, and in every state it reaches with the closed flag set, a
`Close` was called, the registry is the registry as it was at the first `Close` followed by
one channel for each `Subscribe` called after it, every channel of the first part (every
channel returned by a `Subscribe` before the first `Close`) is closed, and every channel of
the second part (returned by a `Subscribe` after the first `Close`) is open. -/
theorem closed_flag_channels (jsonDecode : String → Except GoError pushRequest)
    (config : SubscriberConfig) (logger : Option LoggerAdapter) (s0 : Subscriber)
    (w0 : World) (calls : List Call)
    (hnew : NewSubscriber jsonDecode config logger = (some s0, none)) :
    ∃ (s : Subscriber) (w : World), run calls (s0, w0) = some (s, w) ∧
      (s.closed = true →
        ∃ (calls1 calls2 : List Call) (s1 : Subscriber) (w1 : World) (later : List Nat),
          calls = calls1 ++ Call.Close :: calls2 ∧ Call.Close ∉ calls1 ∧
          run calls1 (s0, w0) = some (s1, w1) ∧
          s.outputChannels = s1.outputChannels ++ later ∧
          later.length = calls2.countP Call.isSubscribe ∧
          (∀ ch ∈ s1.outputChannels, w.isClosed ch = true) ∧
          (∀ ch ∈ later, w.isClosed ch = false)) := by
  obtain ⟨_, hopen, hreg⟩ := NewSubscriber_some jsonDecode config logger s0 hnew
  have hinv := NewSubscriber_inv jsonDecode config logger s0 w0 hnew
  obtain ⟨st2, h1, _, _⟩ := run_ok calls (s0, w0) hinv hreg
  refine ⟨st2.1, st2.2, h1, ?_⟩
  intro hcl
  exact run_closed calls (s0, w0) st2.1 st2.2 hinv hopen h1 hcl

/-- C10, amended, on a subscription before `Close` and one after it. -/
theorem closed_flag_channels_witness :
    ∃ (s : Subscriber) (w : World),
      run [Call.Subscribe 0 "a", Call.Close, Call.Subscribe 1 "b"]
        (exampleSubscriber, emptyWorld) = some (s, w) ∧
      (s.closed = true →
        ∃ (calls1 calls2 : List Call) (s1 : Subscriber) (w1 : World) (later : List Nat),
          [Call.Subscribe 0 "a", Call.Close, Call.Subscribe 1 "b"] =
            calls1 ++ Call.Close :: calls2 ∧ Call.Close ∉ calls1 ∧
          run calls1 (exampleSubscriber, emptyWorld) = some (s1, w1) ∧
          s.outputChannels = s1.outputChannels ++ later ∧
          later.length = calls2.countP Call.isSubscribe ∧
          (∀ ch ∈ s1.outputChannels, w.isClosed ch = true) ∧
          (∀ ch ∈ later, w.isClosed ch = false)) :=
  closed_flag_channels exampleJsonDecode exampleConfig none exampleSubscriber emptyWorld
    [Call.Subscribe 0 "a", Call.Close, Call.Subscribe 1 "b"] rfl

end googlecloud_http
